import Mathlib

/-!
Verification development for the Smart-Trip-Scout trip-planning engine
(`src/planner.py`, with the variant scorer in `src/planner_backup.py`).

The Python code is shallowly embedded:
* Python floats are modelled as rationals (`ℚ`); the constants involved
  (0.5, 0.2, 0.1, prices, mileage rates) are all exactly representable.
* Python dict-shaped candidate items are modelled by the structure `Item`
  with the fixed key set the code reads (`name`, `tags`, `type`, `cuisine`,
  `rating`, `start_date`, `end_date`); a missing optional key is `none`.
* `str.lower`, `str.strip`, substring tests and string comparison are
  re-implemented over character lists (`lowerStr`, `trimStr`, `containsSub`,
  `strLeB`) because the corresponding core-library functions do not reduce
  in the kernel; they agree with Python semantics on the strings involved.
* `random.shuffle` and `datetime.strftime` are injected as parameters
  (`shA`, `shR`, `fmt`): a shuffle is an arbitrary day-indexed function on
  lists (theorems assume it permutes its input, which `random.shuffle`
  does), and `fmt` maps a day ordinal (days since some epoch) to its ISO
  date string (which `strftime` renders injectively).
* Python's `sorted(..., key=..., reverse=True)` is a stable descending
  sort; it is modelled by `List.mergeSort`, which is also stable.
* The one dynamically-typed failure reachable in `function_tool_optimizer`
  (comparing `None <= str` when a festival-typed item has no
  `start_date`) is modelled by returning `Except.error`.
-/

namespace TripScout

/-! ## String helpers (Python `str.lower`, `in`, `strip`, `<=`) -/

/-- Model of Python `str.lower` (works on the character list, since
`String.toLower` does not reduce in the kernel). -/
def lowerStr (s : String) : String := ⟨s.data.map Char.toLower⟩

/-- Substring test on character lists: `containsSub hay needle` models
Python `needle in hay`. -/
def containsSub (hay needle : List Char) : Bool :=
  needle.isPrefixOf hay ||
    match hay with
    | [] => false
    | _ :: t => containsSub t needle

/-- Lexicographic comparison of character lists by code point, the order
Python uses to compare strings. -/
def charsLe : List Char → List Char → Bool
  | [], _ => true
  | _ :: _, [] => false
  | a :: as, b :: bs =>
    if a.val < b.val then true
    else if b.val < a.val then false
    else charsLe as bs

/-- Model of Python string `<=`. -/
def strLeB (a b : String) : Bool := charsLe a.data b.data

/-- Python whitespace test used by `str.strip`. -/
def isSpaceChar (c : Char) : Bool :=
  c == ' ' || c == '\t' || c == '\n' || c == '\r'

/-- Model of Python `str.strip`. -/
def trimStr (s : String) : String :=
  ⟨((s.data.dropWhile isSpaceChar).reverse.dropWhile isSpaceChar).reverse⟩

/-! ## Data model

A candidate activity / restaurant / event, as read by the planner
(`src/planner.py`).  `itemType` models the `type` key, `startDate` and
`endDate` the ISO date strings festivals carry. -/

structure Item where
  name : String
  tags : List String := []
  itemType : Option String := none
  cuisine : Option String := none
  rating : ℚ := 0
  startDate : Option String := none
  endDate : Option String := none
deriving DecidableEq

/-- An item annotated with a score, the result of `item.copy()` followed by
`scored_item['score'] = final_score` (`src/planner.py:441-442`). -/
structure ScoredItem where
  toItem : Item
  score : ℚ
deriving DecidableEq

/-! ## Scorer (`function_tool_evaluator`, `src/planner.py:416-445`) -/

/-- Interest bonus accumulation (`src/planner.py:428-431`): `+0.2` for each
user interest that case-insensitively substring-matches some tag. -/
def interestBonus (interests : List String) (tags : List String) : ℚ :=
  interests.foldl
    (fun acc interest =>
      if tags.any (fun tag => containsSub (lowerStr tag).data (lowerStr interest).data)
      then acc + 0.2 else acc) 0

/-- Weather bonus of `function_tool_evaluator` (`src/planner.py:433-437`):
`0.1` if the condition is exactly `'sunny'` and the item is tagged
`outdoor`, else `0.1` if it is exactly `'rainy'` and the item is tagged
`indoor`, else `0`. -/
def weatherBonus (condition : Option String) (tags : List String) : ℚ :=
  if condition = some "sunny" ∧ tags.contains "outdoor" then 0.1
  else if condition = some "rainy" ∧ tags.contains "indoor" then 0.1
  else 0

/-- Score one item (`src/planner.py:422-442`): base 0.5 plus interest and
weather bonuses, clamped to 1.0, attached to a copy of the item. -/
def scoreItem (interests : List String) (condition : Option String)
    (item : Item) : ScoredItem :=
  ⟨item, min 1 (0.5 + interestBonus interests item.tags + weatherBonus condition item.tags)⟩

/-- The list of scored items in input order, before sorting
(`scored_items` at `src/planner.py:420-443`). -/
def scoreItems (items : List Item) (interests : List String)
    (condition : Option String) : List ScoredItem :=
  items.map (scoreItem interests condition)

/-- Comparator used to model `sorted(scored_items, key=lambda x: x['score'],
reverse=True)`: a stable descending sort by score. -/
def byScoreDesc (a b : ScoredItem) : Bool := decide (b.score ≤ a.score)

/-- Model of `function_tool_evaluator` (`src/planner.py:416-445`); the
`weather` dict is represented by its `condition` entry. -/
def function_tool_evaluator (items : List Item) (interests : List String)
    (condition : Option String) : List ScoredItem :=
  (scoreItems items interests condition).mergeSort byScoreDesc

/-! ## Backup scorer (`_apply_intelligent_scoring`,
`src/planner_backup.py:144-177`) -/

/-- Weather bonus of `_apply_intelligent_scoring`
(`src/planner_backup.py:157-161`): the condition is lowercased (default
`''`) and checked against `['sunny', 'clear']` / `['rainy', 'cloudy']`. -/
def weatherBonusIntelligent (condition : Option String) (tags : List String) : ℚ :=
  if (["sunny", "clear"].contains (lowerStr (condition.getD ""))) ∧ tags.contains "outdoor"
  then 0.1
  else if (["rainy", "cloudy"].contains (lowerStr (condition.getD ""))) ∧ tags.contains "indoor"
  then 0.1
  else 0

/-- Interest bonus of `_apply_intelligent_scoring`
(`src/planner_backup.py:150-155`): `+0.15` per tag match and a further
`+0.1` if the interest substring-matches the item name. -/
def interestBonusIntelligent (interests : List String) (item : Item) : ℚ :=
  interests.foldl
    (fun acc interest =>
      let acc1 :=
        if item.tags.any (fun tag => containsSub (lowerStr tag).data (lowerStr interest).data)
        then acc + 0.15 else acc
      if containsSub (lowerStr item.name).data (lowerStr interest).data
      then acc1 + 0.1 else acc1) 0

/-- Quality bonus (`src/planner_backup.py:163-167`). -/
def qualityBonus (rating : ℚ) : ℚ :=
  if 4.5 ≤ rating then 0.1 else if 4 ≤ rating then 0.05 else 0

/-- Festival-type boost (`src/planner_backup.py:169-171`). -/
def festivalTypeBonus (itemType : Option String) : ℚ :=
  match itemType with
  | some t => if (["Food Festival", "Music Festival", "Cultural Event"].contains t) then 0.15 else 0
  | none => 0

/-- Score of one item under `_apply_intelligent_scoring`
(`src/planner_backup.py:146-173`). -/
def scoreItemIntelligent (interests : List String) (condition : Option String)
    (item : Item) : ScoredItem :=
  ⟨item, min 1 (0.5 + interestBonusIntelligent interests item
      + weatherBonusIntelligent condition item.tags
      + qualityBonus item.rating + festivalTypeBonus item.itemType)⟩

/-- Model of `_apply_intelligent_scoring` (`src/planner_backup.py:144-177`). -/
def applyIntelligentScoring (items : List Item) (interests : List String)
    (condition : Option String) : List ScoredItem :=
  (items.map (scoreItemIntelligent interests condition)).mergeSort byScoreDesc

/-! ## Cost estimator (`get_price_estimates` and `calculate_trip_cost`,
`src/planner.py:56-146`) -/

/-- Budget levels; `calculate_trip_cost` indexes the price tables with the
caller's `budget_level` string, so a valid input uses one of these keys. -/
inductive Budget where
  | low
  | mid
  | luxury
deriving DecidableEq

/-- Base per-person per-day (per-night for lodging) prices
(`src/planner.py:62-87`), by category and budget level. -/
def basePrice : String → Budget → ℚ
  | "meals", .low => 25
  | "meals", .mid => 50
  | "meals", .luxury => 100
  | "activities", .low => 15
  | "activities", .mid => 40
  | "activities", .luxury => 80
  | "transport", .low => 10
  | "transport", .mid => 25
  | "transport", .luxury => 60
  | "lodging", .low => 40
  | "lodging", .mid => 100
  | "lodging", .luxury => 250
  | _, _ => 0

/-- Regional cost-of-living multipliers (`src/planner.py:90-102`). -/
def regionalMultipliers : List (String × ℚ) :=
  [("paris", 1.4), ("london", 1.3), ("new york", 1.3), ("tokyo", 1.2), ("sydney", 1.2),
   ("zurich", 1.5), ("oslo", 1.4), ("copenhagen", 1.3), ("stockholm", 1.2),
   ("rome", 1.0), ("madrid", 0.9), ("berlin", 0.9), ("amsterdam", 1.1), ("barcelona", 0.9),
   ("prague", 0.7), ("budapest", 0.6), ("lisbon", 0.8), ("athens", 0.7),
   ("bangkok", 0.4), ("mexico city", 0.5), ("istanbul", 0.5), ("cairo", 0.4),
   ("delhi", 0.3), ("lima", 0.5), ("marrakech", 0.5)]

/-- The destination key used for the multiplier lookup
(`src/planner.py:105`): `destination.lower().split(',')[0].strip()`. -/
def destKey (destination : String) : String :=
  trimStr ⟨(lowerStr destination).data.takeWhile (fun c => c ≠ ',')⟩

/-- Destination multiplier with default 1.0 (`src/planner.py:106`). -/
def destMultiplier (destination : String) : ℚ :=
  (regionalMultipliers.lookup (destKey destination)).getD 1.0

/-- Model of `get_price_estimates` (`src/planner.py:56-116`): the adjusted
price for a category and budget level at a destination. -/
def get_price_estimates (destination : String) (category : String)
    (budget : Budget) : ℚ :=
  basePrice category budget * destMultiplier destination

/-- The cost breakdown dict built by `calculate_trip_cost`
(`src/planner.py:133-144`); `lodging` is `none` when the key is absent. -/
structure CostBreakdown where
  meals : ℚ
  activities : ℚ
  transport : ℚ
  lodging : Option ℚ
  miscellaneous : ℚ
deriving DecidableEq

/-- Sum of the dict's values, as `sum(cost_breakdown.values())` computes it
(`src/planner.py:652`). -/
def CostBreakdown.total (cb : CostBreakdown) : ℚ :=
  cb.meals + cb.activities + cb.transport + cb.lodging.getD 0 + cb.miscellaneous

/-- Model of `calculate_trip_cost` (`src/planner.py:118-146`).  The parsed
`start_date` and `end_date` are represented by day ordinals, so
`(end - start).days` is `(endOrd : ℤ) - startOrd`.  For a valid date range
(`startOrd ≤ endOrd`) this agrees with the Python computation. -/
def calculate_trip_cost (destination : String) (startOrd endOrd : ℕ)
    (budget : Budget) (numTravelers : ℕ) (includeLodging : Bool) : CostBreakdown :=
  let days : ℚ := ((endOrd : ℤ) - (startOrd : ℤ) + 1 : ℤ)
  let nights : ℚ := days - 1
  let meals := get_price_estimates destination "meals" budget * days * numTravelers
  let activities := get_price_estimates destination "activities" budget * days * numTravelers
  let transport := get_price_estimates destination "transport" budget * days * numTravelers
  let lodging : Option ℚ :=
    if includeLodging
    then some (get_price_estimates destination "lodging" budget * nights * numTravelers)
    else none
  let subtotal := meals + activities + transport + lodging.getD 0
  { meals := meals, activities := activities, transport := transport,
    lodging := lodging, miscellaneous := subtotal * 0.1 }

/-! ## Travel comparator (`get_driving_distance`, `calculate_driving_cost`,
`get_flight_cost`, `compare_travel_options`, `src/planner.py:148-414`) -/

/-- Driving distance table (`src/planner.py:158-168`): miles and one-way
hours for known city pairs. -/
def drivingTable : List (String × ℚ × ℚ) :=
  [("new york-washington dc", (225, 4.5)),
   ("los angeles-san francisco", (380, 6.0)),
   ("chicago-detroit", (280, 4.5)),
   ("miami-orlando", (235, 3.5)),
   ("seattle-portland", (173, 3.0)),
   ("boston-philadelphia", (300, 5.0)),
   ("dallas-houston", (240, 3.5)),
   ("atlanta-charlotte", (245, 4.0))]

/-- Model of `get_driving_distance` (`src/planner.py:148-183`): look up the
pair key, then the reversed key, else the default estimate of 300 miles at
65 mph. -/
def get_driving_distance (origin destination : String) : ℚ × ℚ :=
  let searchKey := lowerStr origin ++ "-" ++ lowerStr destination
  let reverseKey := lowerStr destination ++ "-" ++ lowerStr origin
  match drivingTable.lookup searchKey with
  | some v => v
  | none =>
    match drivingTable.lookup reverseKey with
    | some v => v
    | none => (300, 300 / 65)

/-- The dict returned by `calculate_driving_cost` (`src/planner.py:202-209`). -/
structure DrivingCost where
  gas_cost : ℚ
  wear_and_tear : ℚ
  tolls : ℚ
  parking : ℚ
  total_per_group : ℚ
  total_per_person : ℚ
deriving DecidableEq

/-- Model of `calculate_driving_cost` (`src/planner.py:185-209`) with the
default `mpg = 25` and `gas_price = 3.50`. -/
def calculate_driving_cost (distanceMiles : ℚ) (numTravelers : ℕ) : DrivingCost :=
  let totalMiles := distanceMiles * 2
  let gallonsNeeded := totalMiles / 25
  let totalGasCost := gallonsNeeded * 3.50
  let wearCost := totalMiles * 0.10
  let estimatedTolls := min 50 (distanceMiles * 0.05)
  let parkingCost := 25 * (distanceMiles / 200)
  { gas_cost := totalGasCost, wear_and_tear := wearCost,
    tolls := estimatedTolls, parking := parkingCost,
    total_per_group := totalGasCost + wearCost + estimatedTolls + parkingCost,
    total_per_person := (totalGasCost + wearCost + estimatedTolls + parkingCost) / numTravelers }

/-- Flight cost table (`src/planner.py:221-231`): one-way base price and
flight duration for known routes. -/
def flightTable : List (String × ℚ × ℚ) :=
  [("new york-washington dc", (180, 1.5)),
   ("los angeles-san francisco", (120, 1.5)),
   ("chicago-detroit", (160, 1.2)),
   ("miami-orlando", (90, 1.0)),
   ("seattle-portland", (110, 1.0)),
   ("boston-philadelphia", (150, 1.5)),
   ("dallas-houston", (140, 1.2)),
   ("atlanta-charlotte", (130, 1.0))]

/-- The dict returned by `get_flight_cost` (`src/planner.py:252-257`). -/
structure FlightCost where
  price_per_person : ℚ
  total_cost : ℚ
  flight_duration : ℚ
  total_travel_time : ℚ
deriving DecidableEq

/-- Model of `get_flight_cost` (`src/planner.py:211-257`): table lookup
(forward then reversed key) with defaults 200 dollars and 2.5 hours, round
trip doubling, and a 2-hour airport overhead. -/
def get_flight_cost (origin destination : String) (numTravelers : ℕ) : FlightCost :=
  let searchKey := lowerStr origin ++ "-" ++ lowerStr destination
  let reverseKey := lowerStr destination ++ "-" ++ lowerStr origin
  let bd : ℚ × ℚ :=
    match flightTable.lookup searchKey with
    | some v => v
    | none =>
      match flightTable.lookup reverseKey with
      | some v => v
      | none => (200, 2.5)
  let roundTripPrice := bd.1 * 2
  { price_per_person := roundTripPrice,
    total_cost := roundTripPrice * numTravelers,
    flight_duration := bd.2,
    total_travel_time := bd.2 + 2 }

/-- The `driving` alternative of the comparison (`src/planner.py:365-375`);
the constant pros/cons string lists are omitted as inert data. -/
structure DrivingOption where
  distance_miles : ℚ
  drive_time_hours : ℚ
  total_time_hours : ℚ
  cost_breakdown : DrivingCost
  total_cost : ℚ
  cost_per_person : ℚ
  convenience_score : ℚ
deriving DecidableEq

/-- The `flying` alternative of the comparison (`src/planner.py:376-384`). -/
structure FlyingOption where
  flight_duration_hours : ℚ
  total_time_hours : ℚ
  cost_per_person : ℚ
  total_cost : ℚ
  convenience_score : ℚ
deriving DecidableEq

/-- The `recommendation` entry (`src/planner.py:407-412`). -/
structure Recommendation where
  preferred : String
  reason : String
  cost_difference : ℚ
  time_difference : ℚ
deriving DecidableEq

/-- The full comparison dict (`src/planner.py:364-412`). -/
structure TravelComparison where
  driving : DrivingOption
  flying : FlyingOption
  recommendation : Recommendation
deriving DecidableEq

/-- The recommendation decision chain (`src/planner.py:391-405`), as a
function of the two total costs, the two total times and the traveler
count. -/
def pickRecommendation (drivingCost flyingCost drivingTime flyingTime : ℚ)
    (numTravelers : ℕ) : String × String :=
  if drivingCost < flyingCost - 100 then ("driving", "significantly cheaper")
  else if flyingCost < drivingCost - 100 then ("flying", "significantly cheaper")
  else if flyingTime < drivingTime - 4 then ("flying", "much faster")
  else if 3 ≤ numTravelers then ("driving", "better value for larger groups")
  else ("flying", "better convenience and time savings")

/-- Model of `compare_travel_options` (`src/planner.py:352-414`). -/
def compare_travel_options (origin destination : String) (numTravelers : ℕ) :
    TravelComparison :=
  let di := get_driving_distance origin destination
  let dc := calculate_driving_cost di.1 numTravelers
  let fi := get_flight_cost origin destination numTravelers
  let driving : DrivingOption :=
    { distance_miles := di.1, drive_time_hours := di.2,
      total_time_hours := di.2 * 2, cost_breakdown := dc,
      total_cost := dc.total_per_group, cost_per_person := dc.total_per_person,
      convenience_score := 7 }
  let flying : FlyingOption :=
    { flight_duration_hours := fi.flight_duration,
      total_time_hours := fi.total_travel_time * 2,
      cost_per_person := fi.price_per_person, total_cost := fi.total_cost,
      convenience_score := 8 }
  let rec0 := pickRecommendation driving.total_cost flying.total_cost
    driving.total_time_hours flying.total_time_hours numTravelers
  { driving := driving, flying := flying,
    recommendation :=
      { preferred := rec0.1, reason := rec0.2,
        cost_difference := |driving.total_cost - flying.total_cost|,
        time_difference := |driving.total_time_hours - flying.total_time_hours| } }

/-! ## Itinerary optimizer (`function_tool_optimizer`,
`src/planner.py:447-548`)

Dates are day ordinals (`ℕ`, days since an epoch); `fmt` plays the role of
`datetime.strftime('%Y-%m-%d')`, mapping an ordinal to its ISO string.
`shA` and `shR` model `random.shuffle` at a pool reset: the function
applied on day `d` to the full pool returns the reshuffled copy. -/

/-- One day's slot assignment (`day_plan` at `src/planner.py:540-544`). -/
structure DayPlan where
  morning : Option Item
  afternoon : Option Item
  evening : Option Item
deriving DecidableEq

/-- The event types recognized as festivals (`src/planner.py:496`). -/
def festivalTypes : List String :=
  ["Food Festival", "Music Festival", "Cultural Event", "Heritage Festival",
   "Night Market", "Nature Festival"]

/-- Whether `act.get('type')` is one of the festival types; Python's
`None in [...]` is `False`. -/
def isFestivalType (act : Item) : Bool :=
  match act.itemType with
  | some t => festivalTypes.contains t
  | none => false

/-- The pure date-window test `act['start_date'] <= date_str <=
act.get('end_date', date_str)` for an item that has a `start_date`. -/
def festivalWindow (dateStr : String) (act : Item) (sd : String) : Bool :=
  strLeB sd dateStr && strLeB dateStr (act.endDate.getD dateStr)

/-- The per-item test of the `festivals_today` comprehension
(`src/planner.py:495-497`).  When a festival-typed item has no
`start_date`, Python evaluates `None <= date_str` and raises `TypeError`;
this is the `Except.error` case. -/
def isFestivalToday (dateStr : String) (act : Item) : Except String Bool :=
  if isFestivalType act then
    match act.startDate with
    | none => .error "TypeError: <= not supported between NoneType and str"
    | some sd => .ok (festivalWindow dateStr act sd)
  else
    .ok false

/-- Effectful filter for the `festivals_today` list comprehension: the
predicate runs left to right and the first raised error aborts. -/
def filterE (p : Item → Except String Bool) : List Item → Except String (List Item)
  | [] => .ok []
  | a :: as =>
    match p a with
    | .error e => .error e
    | .ok b =>
      match filterE p as with
      | .error e => .error e
      | .ok rest => .ok (if b then a :: rest else rest)

/-- Morning slot selection (`src/planner.py:499-512`): prefer the first
festival of the day, else the first outdoor-tagged unused activity, else
the first unused activity; mark it used and remove it from the unused
pool.  Returns (morning, updated used set, updated unused pool). -/
def morningSel (festToday unusedA : List Item) (usedA : List String) :
    Option Item × List String × List Item :=
  match festToday, unusedA with
  | f :: _, _ :: _ => (some f, f.name :: usedA, unusedA.erase f)
  | _, u :: _ =>
    match unusedA.filter (fun a => a.tags.contains "outdoor") with
    | o :: _ => (some o, o.name :: usedA, unusedA.erase o)
    | [] => (some u, u.name :: usedA, unusedA.erase u)
  | _, [] => (none, usedA, unusedA)

/-- Afternoon slot selection (`src/planner.py:514-532`): prefer a
remaining same-day festival, else the next unused activity, else (pool
exhausted) the first available activity of a different type than the
morning's, which is not marked used.  Returns (afternoon, updated used
set). -/
def afternoonSel (festToday : List Item) (morning : Option Item)
    (usedA1 : List String) (unusedA1 : List Item) (availA : List Item) :
    Option Item × List String :=
  match festToday.filter (fun a => !(usedA1.contains a.name)), unusedA1 with
  | f :: _, _ :: _ => (some f, f.name :: usedA1)
  | _, u :: _ => (some u, u.name :: usedA1)
  | _, [] =>
    match morning with
    | some m =>
      match availA.filter (fun a => a.name ≠ m.name ∧ a.itemType ≠ m.itemType) with
      | d :: _ => (some d, usedA1)
      | [] => (none, usedA1)
    | none => (none, usedA1)

/-- Evening slot selection (`src/planner.py:534-538`): the first unused
restaurant, marked used.  Returns (evening, updated used set). -/
def eveningSel (unusedR : List Item) (usedR : List String) :
    Option Item × List String :=
  match unusedR with
  | r :: _ => (some r, r.name :: usedR)
  | [] => (none, usedR)

/-- Slot selection for one day (`src/planner.py:489-544`), after the
used-set resets have been resolved and `festivals_today` has been
computed: the morning, afternoon and evening picks above in sequence,
returning the day plan and the updated used-name sets.  The working
copies of the unused lists are dropped at day end, so the
`unused_activities.remove(...)` bookkeeping after the afternoon pick and
`unused_restaurants.remove(...)` after the evening pick are not
represented. -/
def planDayCore (festToday unusedA unusedR availA : List Item)
    (usedA usedR : List String) :
    DayPlan × List String × List String :=
  let mSel := morningSel festToday unusedA usedA
  let aSel := afternoonSel festToday mSel.1 mSel.2.1 mSel.2.2 availA
  let eSel := eveningSel unusedR usedR
  (⟨mSel.1, aSel.1, eSel.1⟩, aSel.2, eSel.2)

/-- One iteration of the day loop (`src/planner.py:469-546`): recompute the
unused pools, reset-and-reshuffle an exhausted non-empty pool
(`src/planner.py:477-487`), compute `festivals_today`, then select the
day's slots. -/
def planDay (shuffleA shuffleR : List Item → List Item) (dateStr : String)
    (availA availR : List Item) (usedA usedR : List String) :
    Except String (DayPlan × List String × List String) :=
  let unusedA0 := availA.filter (fun a => !(usedA.contains a.name))
  let unusedR0 := availR.filter (fun r => !(usedR.contains r.name))
  let stA : List String × List Item :=
    if unusedA0.isEmpty && !availA.isEmpty then ([], shuffleA availA) else (usedA, unusedA0)
  let stR : List String × List Item :=
    if unusedR0.isEmpty && !availR.isEmpty then ([], shuffleR availR) else (usedR, unusedR0)
  match filterE (isFestivalToday dateStr) stA.2 with
  | .error e => .error e
  | .ok festToday => .ok (planDayCore festToday stA.2 stR.2 availA stA.1 stR.1)

/-- One itinerary entry together with the two used-name sets at the start
of the day (ghost state recording when a reset can fire). -/
structure DayRec where
  dateStr : String
  plan : DayPlan
  entryUsedA : List String
  entryUsedR : List String
deriving DecidableEq

/-- The day loop of `function_tool_optimizer` (`src/planner.py:469-546`),
running for `n` more days starting at day index `day`. -/
def optimizerAux (shA shR : ℕ → List Item → List Item) (fmt : ℕ → String)
    (availA availR : List Item) (startOrd : ℕ) :
    ℕ → ℕ → List String → List String → Except String (List DayRec)
  | 0, _, _, _ => .ok []
  | n + 1, day, usedA, usedR =>
    match planDay (shA day) (shR day) (fmt (startOrd + day)) availA availR usedA usedR with
    | .error e => .error e
    | .ok (plan, usedA1, usedR1) =>
      match optimizerAux shA shR fmt availA availR startOrd n (day + 1) usedA1 usedR1 with
      | .error e => .error e
      | .ok rest => .ok (⟨fmt (startOrd + day), plan, usedA, usedR⟩ :: rest)

/-- Model of `function_tool_optimizer` (`src/planner.py:447-548`): the
itinerary as a date-keyed association list (Python builds a dict whose
keys are inserted in chronological order).  `days` is
`(end - start).days + 1`, and a non-positive value yields an empty
itinerary as `range` does. -/
def function_tool_optimizer (shA shR : ℕ → List Item → List Item)
    (fmt : ℕ → String) (activities restaurants : List Item)
    (startOrd endOrd : ℕ) : Except String (List (String × DayPlan)) :=
  let days := ((endOrd : ℤ) - (startOrd : ℤ) + 1).toNat
  (optimizerAux shA shR fmt activities restaurants startOrd days 0 [] []).map
    (List.map (fun r => (r.dateStr, r.plan)))

/-- The run of `function_tool_optimizer` with its ghost per-day entry
states kept (used to observe when a pool reset fires). -/
def optimizerTrace (shA shR : ℕ → List Item → List Item)
    (fmt : ℕ → String) (activities restaurants : List Item)
    (startOrd endOrd : ℕ) : Except String (List DayRec) :=
  optimizerAux shA shR fmt activities restaurants startOrd
    ((endOrd : ℤ) - (startOrd : ℤ) + 1).toNat 0 [] []

/-- Whether the activity-pool reset (`src/planner.py:478-481`) fires on
some day of a recorded run: at that day's entry state every activity name
is used while the pool is non-empty. -/
def activityResetFires (availA : List Item) (recs : List DayRec) : Bool :=
  recs.any (fun r =>
    (availA.filter (fun a => !(r.entryUsedA.contains a.name))).isEmpty
      && !availA.isEmpty)

/-- Whether the restaurant-pool reset (`src/planner.py:484-487`) fires on
some day of a recorded run. -/
def restaurantResetFires (availR : List Item) (recs : List DayRec) : Bool :=
  recs.any (fun r =>
    (availR.filter (fun a => !(r.entryUsedR.contains a.name))).isEmpty
      && !availR.isEmpty)

/-! ## The planning pipeline (`plan_trip`, `src/planner.py:550-645`) -/

/-- The simulated weather (`src/planner.py:565-570`): condition `sunny`. -/
def pipelineWeather : Option String := some "sunny"

/-- The fixed restaurant pool of `plan_trip` (`src/planner.py:577-585`). -/
def pipelineRestaurants : List Item :=
  [{ name := "Local Bistro", cuisine := some "French", rating := 4.5,
     tags := ["food", "fine dining"] },
   { name := "Street Food Market", cuisine := some "Various", rating := 4.2,
     tags := ["food", "casual", "outdoor"] },
   { name := "Historic Tavern", cuisine := some "Traditional", rating := 4.3,
     tags := ["history", "food", "indoor"] },
   { name := "Rooftop Restaurant", cuisine := some "Contemporary", rating := 4.6,
     tags := ["food", "fine dining", "outdoor", "views"] },
   { name := "Ethnic Fusion Cafe", cuisine := some "Fusion", rating := 4.1,
     tags := ["food", "casual", "culture"] },
   { name := "Seafood Grill", cuisine := some "Seafood", rating := 4.4,
     tags := ["food", "fine dining", "fresh"] },
   { name := "Local Pizza Joint", cuisine := some "Italian", rating := 4.0,
     tags := ["food", "casual", "family"] }]

/-- The fixed activity pool of `plan_trip` (`src/planner.py:600-613`). -/
def pipelineActivities : List Item :=
  [{ name := "City Museum", itemType := some "Cultural", rating := 4.4,
     tags := ["history", "indoor", "culture"] },
   { name := "Food Walking Tour", itemType := some "Tour", rating := 4.6,
     tags := ["food", "outdoor", "walking"] },
   { name := "Concert Hall", itemType := some "Entertainment", rating := 4.3,
     tags := ["music", "indoor", "entertainment"] },
   { name := "Local Market", itemType := some "Shopping", rating := 4.1,
     tags := ["food", "outdoor", "culture"] },
   { name := "Art Gallery", itemType := some "Cultural", rating := 4.5,
     tags := ["art", "indoor", "culture"] },
   { name := "Scenic Park", itemType := some "Nature", rating := 4.2,
     tags := ["nature", "outdoor", "walking"] },
   { name := "Historic Architecture Tour", itemType := some "Tour", rating := 4.3,
     tags := ["history", "outdoor", "culture"] },
   { name := "Cooking Class", itemType := some "Experience", rating := 4.7,
     tags := ["food", "indoor", "hands-on"] },
   { name := "Boat Tour", itemType := some "Tour", rating := 4.4,
     tags := ["water", "outdoor", "scenic"] },
   { name := "Local Brewery", itemType := some "Entertainment", rating := 4.2,
     tags := ["drinks", "indoor", "social"] },
   { name := "Shopping District", itemType := some "Shopping", rating := 3.9,
     tags := ["shopping", "indoor", "variety"] },
   { name := "Observatory", itemType := some "Educational", rating := 4.3,
     tags := ["science", "indoor", "views"] }]

/-- The scored restaurant list of a pipeline run
(`src/planner.py:617`). -/
def pipelineScoredRestaurants (interests : List String) : List ScoredItem :=
  function_tool_evaluator pipelineRestaurants interests pipelineWeather

/-- The festival score boost (`src/planner.py:627-628`): `+0.2`, reclamped
to 1.0. -/
def boostFestival (s : ScoredItem) : ScoredItem :=
  ⟨s.toItem, min 1 (s.score + 0.2)⟩

/-- The scored activity list of a pipeline run (`src/planner.py:620-630`):
the fixed pool is scored, and when the simulated festival search returned
events they are scored, boosted and appended. -/
def pipelineScoredActivities (interests : List String)
    (festivalsEvents : List Item) : List ScoredItem :=
  let scoredActivities := function_tool_evaluator pipelineActivities interests pipelineWeather
  if festivalsEvents.isEmpty then scoredActivities
  else
    scoredActivities ++
      (function_tool_evaluator festivalsEvents interests pipelineWeather).map boostFestival

/-- Sum of the scores of a scored list. -/
def sumScores (l : List ScoredItem) : ℚ := (l.map ScoredItem.score).sum

/-- The confidence computation of `plan_trip` (`src/planner.py:642-645`):
the average of the mean activity score and the mean restaurant score, a
mean being 0 for an empty list. -/
def confidenceOf (scoredActivities scoredRestaurants : List ScoredItem) : ℚ :=
  let avgActivity :=
    if scoredActivities.isEmpty then 0
    else sumScores scoredActivities / scoredActivities.length
  let avgRestaurant :=
    if scoredRestaurants.isEmpty then 0
    else sumScores scoredRestaurants / scoredRestaurants.length
  (avgActivity + avgRestaurant) / 2

/-- The confidence score of a pipeline run, as a function of the user
interests and the simulated festival list (the two run-dependent
inputs). -/
def pipelineConfidence (interests : List String)
    (festivalsEvents : List Item) : ℚ :=
  confidenceOf (pipelineScoredActivities interests festivalsEvents)
    (pipelineScoredRestaurants interests)

/-! ## Claim-side definitions

These definitions follow the wording of the specification claims (not the
source); the theorems below compare them with the embedded code. -/

/-- Claim C5's confidence: the average of all scored items' scores over
the combined collection of scored activities and scored restaurants. -/
def claimCombinedAverage (scoredActivities scoredRestaurants : List ScoredItem) : ℚ :=
  (sumScores scoredActivities + sumScores scoredRestaurants) /
    ((scoredActivities.length : ℚ) + (scoredRestaurants.length : ℚ))

/-- Claim C8's weather-bonus condition: the condition is fair (`sunny` or
`clear`) and the item is tagged `outdoor`, or the condition is poor
(`rainy` or `cloudy`) and the item is tagged `indoor` (conditions read
case-insensitively). -/
def claimFairPoor (condition : Option String) (tags : List String) : Prop :=
  (["sunny", "clear"].contains (lowerStr (condition.getD "")) ∧ tags.contains "outdoor")
  ∨ (["rainy", "cloudy"].contains (lowerStr (condition.getD "")) ∧ tags.contains "indoor")

/-- Claim C6's recommendation policy, evaluated in order: a mode cheaper by
more than 100 dollars wins on cost; else flying more than 4 hours faster
wins on speed; else 3 or more travelers favor driving; else flying. -/
def claimRecommendation (drivingCost flyingCost drivingTime flyingTime : ℚ)
    (numTravelers : ℕ) : String × String :=
  if 100 < flyingCost - drivingCost then ("driving", "significantly cheaper")
  else if 100 < drivingCost - flyingCost then ("flying", "significantly cheaper")
  else if 4 < drivingTime - flyingTime then ("flying", "much faster")
  else if 3 ≤ numTravelers then ("driving", "better value for larger groups")
  else ("flying", "better convenience and time savings")

/-- The activity-slot item names of one day plan: morning then afternoon,
skipping empty slots. -/
def dayActNames (p : DayPlan) : List String :=
  (p.morning.map Item.name).toList ++ (p.afternoon.map Item.name).toList

/-- The evening-slot item names of one day plan. -/
def dayEveNames (p : DayPlan) : List String :=
  (p.evening.map Item.name).toList

/-- The activity-slot item names of an itinerary, in slot order (morning
then afternoon, day by day). -/
def actNames (itinerary : List (String × DayPlan)) : List String :=
  (itinerary.map (fun e => dayActNames e.2)).flatten

/-- The evening-slot item names of an itinerary, in day order. -/
def eveNames (itinerary : List (String × DayPlan)) : List String :=
  (itinerary.map (fun e => dayEveNames e.2)).flatten

/-- Claim C1's reappearance discipline for a slot-name sequence: given the
names already placed (`past`), each further name may repeat an earlier one
only if every pool member name has already appeared. -/
def RepeatOK (pool : List String) : List String → List String → Prop
  | _, [] => True
  | past, x :: rest =>
    (x ∈ past → ∀ p ∈ pool, p ∈ past) ∧ RepeatOK pool (past ++ [x]) rest

/-- Well-formedness of an activity pool: every festival-typed item carries
a `start_date` (the itineraries the pipeline builds always satisfy this;
without it `function_tool_optimizer` raises `TypeError`). -/
def DatedFestivals (items : List Item) : Prop :=
  ∀ a ∈ items, isFestivalType a = true → a.startDate ≠ none

/-- A day-indexed shuffle function that, like `random.shuffle`, returns a
permutation of its input. -/
def IsShuffle (sh : ℕ → List Item → List Item) : Prop :=
  ∀ d l, (sh d l).Perm l

/-! ## Theorems -/

/-- Helper: the interest bonus accumulator never decreases. -/
theorem interestBonus_foldl_le (interests : List String) (tags : List String) :
    ∀ acc : ℚ, acc ≤ interests.foldl
      (fun acc interest =>
        if tags.any (fun tag => containsSub (lowerStr tag).data (lowerStr interest).data)
        then acc + 0.2 else acc) acc := by
  induction interests with
  | nil => intro acc; simp
  | cons i is ih =>
    intro acc
    refine le_trans ?_ (ih _)
    dsimp only
    split
    · norm_num
    · exact le_refl _

/-- Helper: the interest bonus is non-negative. -/
theorem interestBonus_nonneg (interests tags : List String) :
    0 ≤ interestBonus interests tags :=
  interestBonus_foldl_le interests tags 0

/-- Helper: the weather bonus is 0 or 0.1. -/
theorem weatherBonus_cases (condition : Option String) (tags : List String) :
    weatherBonus condition tags = 0 ∨ weatherBonus condition tags = 0.1 := by
  unfold weatherBonus
  split
  · exact Or.inr rfl
  · split
    · exact Or.inr rfl
    · exact Or.inl rfl

/-- Helper: every score produced by `scoreItem` lies in [0.5, 1]. -/
theorem scoreItem_bounds (interests : List String) (condition : Option String)
    (item : Item) : 0.5 ≤ (scoreItem interests condition item).score ∧
      (scoreItem interests condition item).score ≤ 1 := by
  unfold scoreItem
  constructor
  · refine le_min (by norm_num) ?_
    have hib := interestBonus_nonneg interests item.tags
    have hwb : (0 : ℚ) ≤ weatherBonus condition item.tags := by
      rcases weatherBonus_cases condition item.tags with h | h
      · rw [h]
      · rw [h]; norm_num
    linarith
  · exact min_le_left _ _

/-- Helper: the comparator `byScoreDesc` is transitive. -/
theorem byScoreDesc_trans (a b c : ScoredItem) :
    byScoreDesc a b = true → byScoreDesc b c = true → byScoreDesc a c = true := by
  simp only [byScoreDesc, decide_eq_true_iff]
  exact fun h1 h2 => le_trans h2 h1

/-- Helper: the comparator `byScoreDesc` is total. -/
theorem byScoreDesc_total (a b : ScoredItem) :
    (byScoreDesc a b || byScoreDesc b a) = true := by
  simp only [byScoreDesc, Bool.or_eq_true, decide_eq_true_iff]
  exact le_total b.score a.score

/-- C3: for every item list, interest list and weather condition, the
scorer returns one scored item per input item (the output length equals
the input length), sorted descending by score, with ties preserving input
order (any two-element sublist of the pre-sort list with equal scores is a
sublist of the output), every score at least the 0.5 base and at most 1,
and the result of two calls with identical inputs is identical. -/
theorem C3_evaluator_contract (items : List Item) (interests : List String)
    (condition : Option String) :
    (function_tool_evaluator items interests condition).length = items.length
    ∧ List.Pairwise (fun a b => b.score ≤ a.score)
        (function_tool_evaluator items interests condition)
    ∧ (∀ x y : ScoredItem, [x, y].Sublist (scoreItems items interests condition) →
        x.score = y.score →
        [x, y].Sublist (function_tool_evaluator items interests condition))
    ∧ (∀ s ∈ function_tool_evaluator items interests condition,
        0.5 ≤ s.score ∧ s.score ≤ 1)
    ∧ function_tool_evaluator items interests condition
        = function_tool_evaluator items interests condition := by
  refine ⟨?_, ?_, ?_, ?_, rfl⟩
  · unfold function_tool_evaluator
    rw [(List.mergeSort_perm _ _).length_eq]
    simp [scoreItems]
  · have h := List.sorted_mergeSort byScoreDesc_trans
      byScoreDesc_total (scoreItems items interests condition)
    refine h.imp ?_
    intro a b hab
    simpa [byScoreDesc] using hab
  · intro x y hsub heq
    refine List.sublist_mergeSort byScoreDesc_trans byScoreDesc_total ?_ hsub
    simp [byScoreDesc, heq]
  · intro s hs
    have hmem : s ∈ scoreItems items interests condition :=
      (List.mergeSort_perm _ _).mem_iff.mp hs
    simp only [scoreItems, List.mem_map] at hmem
    obtain ⟨item, _, rfl⟩ := hmem
    exact scoreItem_bounds interests condition item

/-- C8 counterexample: for weather condition `clear` and an outdoor-tagged
item — a fair condition in the claim's sense — `function_tool_evaluator`
awards no weather bonus: the item scores 0.5, not 0.6. -/
theorem C8_counterexample :
    claimFairPoor (some "clear") ["outdoor"]
    ∧ weatherBonus (some "clear") ["outdoor"] ≠ 0.1
    ∧ (function_tool_evaluator
        [{ name := "Scenic Park", tags := ["outdoor"] }] [] (some "clear")).map
        ScoredItem.score = [0.5] := by
  have hwb : weatherBonus (some "clear") ["outdoor"] = 0 := by
    unfold weatherBonus
    rw [if_neg (by decide), if_neg (by decide)]
  refine ⟨?_, ?_, ?_⟩
  · left
    exact ⟨by decide, by decide⟩
  · rw [hwb]
    norm_num
  · have h1 : scoreItems [{ name := "Scenic Park", tags := ["outdoor"] }] [] (some "clear")
        = [⟨{ name := "Scenic Park", tags := ["outdoor"] }, 0.5⟩] := by
      simp only [scoreItems, List.map_cons, List.map_nil, scoreItem, interestBonus,
        List.foldl_nil]
      rw [hwb]
      norm_num
    have h2 : function_tool_evaluator
        [{ name := "Scenic Park", tags := ["outdoor"] }] [] (some "clear")
        = [⟨{ name := "Scenic Park", tags := ["outdoor"] }, 0.5⟩] := by
      unfold function_tool_evaluator
      rw [h1]
      exact List.perm_singleton.mp (List.mergeSort_perm _ _)
    rw [h2]
    rfl

/-- C8 (amended): in `function_tool_evaluator` the 0.1 weather bonus
applies exactly when the condition is the exact string `sunny` and the
item is tagged `outdoor`, or the exact string `rainy` and the item is
tagged `indoor` — `clear` and `cloudy` earn nothing there; the
sunny-or-clear / rainy-or-cloudy rule of the claim holds for
`_apply_intelligent_scoring` in `planner_backup.py`; in both scorers the
bonus is 0 or 0.1, so at most one weather bonus applies. -/
theorem C8_weather_bonus (condition : Option String) (tags : List String) :
    (weatherBonus condition tags = 0.1 ↔
      (condition = some "sunny" ∧ tags.contains "outdoor")
      ∨ (condition = some "rainy" ∧ tags.contains "indoor"))
    ∧ (weatherBonusIntelligent condition tags = 0.1 ↔ claimFairPoor condition tags)
    ∧ (weatherBonus condition tags = 0 ∨ weatherBonus condition tags = 0.1)
    ∧ (weatherBonusIntelligent condition tags = 0
        ∨ weatherBonusIntelligent condition tags = 0.1) := by
  refine ⟨?_, ?_, ?_, ?_⟩
  · unfold weatherBonus
    split
    · rename_i hc
      exact ⟨fun _ => Or.inl hc, fun _ => rfl⟩
    · split
      · rename_i hc1 hc2
        exact ⟨fun _ => Or.inr hc2, fun _ => rfl⟩
      · rename_i hc1 hc2
        constructor
        · intro h; norm_num at h
        · intro h
          rcases h with h | h
          · exact absurd h hc1
          · exact absurd h hc2
  · unfold weatherBonusIntelligent claimFairPoor
    split
    · rename_i hc
      exact ⟨fun _ => Or.inl hc, fun _ => rfl⟩
    · split
      · rename_i hc1 hc2
        exact ⟨fun _ => Or.inr hc2, fun _ => rfl⟩
      · rename_i hc1 hc2
        constructor
        · intro h; norm_num at h
        · intro h
          rcases h with h | h
          · exact absurd h hc1
          · exact absurd h hc2
  · unfold weatherBonus
    split
    · exact Or.inr rfl
    · split
      · exact Or.inr rfl
      · exact Or.inl rfl
  · unfold weatherBonusIntelligent
    split
    · exact Or.inr rfl
    · split
      · exact Or.inr rfl
      · exact Or.inl rfl

/-- C10: the scorer does not modify its input: the pre-sort scored list
carries exactly the input items in order (each output is the input item
with only a score attached), and the sorted result is a permutation of
the inputs, every returned element wrapping an input item unchanged. -/
theorem C10_evaluator_frame (items : List Item) (interests : List String)
    (condition : Option String) :
    (scoreItems items interests condition).map ScoredItem.toItem = items
    ∧ ((function_tool_evaluator items interests condition).map
        ScoredItem.toItem).Perm items
    ∧ ∀ s ∈ function_tool_evaluator items interests condition, s.toItem ∈ items := by
  have hmap : (scoreItems items interests condition).map ScoredItem.toItem = items := by
    simp only [scoreItems, List.map_map]
    have hcomp : (ScoredItem.toItem ∘ scoreItem interests condition) = id := rfl
    rw [hcomp, List.map_id]
  refine ⟨hmap, ?_, ?_⟩
  · have hperm := (List.mergeSort_perm (scoreItems items interests condition)
      byScoreDesc).map ScoredItem.toItem
    rw [hmap] at hperm
    exact hperm
  · intro s hs
    have hmem : s ∈ scoreItems items interests condition :=
      (List.mergeSort_perm _ _).mem_iff.mp hs
    simp only [scoreItems, List.mem_map] at hmem
    obtain ⟨item, hitem, rfl⟩ := hmem
    exact hitem

/-- C4: for every valid input, the cost breakdown's miscellaneous entry is
10% of the sum of the other entries, the lodging entry is present exactly
when the lodging flag is set (and then covers nights = days − 1), and the
breakdown's total is the sum of meals, activities, transport, lodging
(0 when absent) and miscellaneous. -/
theorem C4_cost_breakdown (destination : String) (startOrd endOrd : ℕ)
    (budget : Budget) (numTravelers : ℕ) (includeLodging : Bool)
    (h : startOrd ≤ endOrd) :
    let cb := calculate_trip_cost destination startOrd endOrd budget
      numTravelers includeLodging
    cb.miscellaneous
        = 0.1 * (cb.meals + cb.activities + cb.transport + cb.lodging.getD 0)
    ∧ (cb.lodging.isSome ↔ includeLodging = true)
    ∧ (includeLodging = true → cb.lodging
        = some (get_price_estimates destination "lodging" budget
            * ((endOrd - startOrd : ℕ) : ℚ) * numTravelers))
    ∧ cb.total = cb.meals + cb.activities + cb.transport
        + cb.lodging.getD 0 + cb.miscellaneous := by
  intro cb
  refine ⟨?_, ?_, ?_, rfl⟩
  · show (cb.meals + cb.activities + cb.transport + cb.lodging.getD 0) * 0.1
      = 0.1 * (cb.meals + cb.activities + cb.transport + cb.lodging.getD 0)
    ring
  · show (if includeLodging then _ else none).isSome ↔ _
    cases includeLodging <;> simp
  · intro hl
    show (if includeLodging then _ else none) = _
    rw [if_pos hl]
    have hn : ((((endOrd : ℤ) - (startOrd : ℤ) + 1 : ℤ) : ℚ) - 1)
        = ((endOrd - startOrd : ℕ) : ℚ) := by
      push_cast [Nat.cast_sub h]
      ring
    rw [hn]

/-- C4 witness: the five-day Paris scenario with lodging for two
travelers. -/
theorem C4_cost_breakdown_witness :
    (0 : ℕ) ≤ 4 ∧
    (let cb := calculate_trip_cost "Paris, France" 0 4 Budget.mid 2 true
     cb.miscellaneous
        = 0.1 * (cb.meals + cb.activities + cb.transport + cb.lodging.getD 0)
     ∧ (cb.lodging.isSome ↔ true = true)
     ∧ (true = true → cb.lodging
        = some (get_price_estimates "Paris, France" "lodging" Budget.mid
            * ((4 - 0 : ℕ) : ℚ) * 2))
     ∧ cb.total = cb.meals + cb.activities + cb.transport
        + cb.lodging.getD 0 + cb.miscellaneous) :=
  ⟨by decide, C4_cost_breakdown "Paris, France" 0 4 Budget.mid 2 true (by decide)⟩

/-- Helper: the coded recommendation chain agrees with the claim's policy
wording. -/
theorem pickRecommendation_eq_claim (dc fc dt ft : ℚ) (n : ℕ) :
    pickRecommendation dc fc dt ft n = claimRecommendation dc fc dt ft n := by
  unfold pickRecommendation claimRecommendation
  split_ifs <;> first | rfl | (exfalso; linarith)

/-- C6: for every origin, destination and party size of at least 1, the
comparator's recommendation follows the claimed order: the mode cheaper by
more than 100 dollars wins on cost, else flying wins when it saves more
than 4 hours of total time, else a party of 3 or more gets driving, else
flying. -/
theorem C6_recommendation_policy (origin destination : String)
    (numTravelers : ℕ) (_h : 1 ≤ numTravelers) :
    ((compare_travel_options origin destination numTravelers).recommendation.preferred,
      (compare_travel_options origin destination numTravelers).recommendation.reason)
      = claimRecommendation
          (compare_travel_options origin destination numTravelers).driving.total_cost
          (compare_travel_options origin destination numTravelers).flying.total_cost
          (compare_travel_options origin destination numTravelers).driving.total_time_hours
          (compare_travel_options origin destination numTravelers).flying.total_time_hours
          numTravelers := by
  show pickRecommendation _ _ _ _ numTravelers = _
  exact pickRecommendation_eq_claim _ _ _ _ numTravelers

/-- C6 witness: a concrete instantiation (a known route, two
travelers). -/
theorem C6_recommendation_policy_witness :
    (1 : ℕ) ≤ 2 ∧
    (((compare_travel_options "Boston" "Philadelphia" 2).recommendation.preferred,
      (compare_travel_options "Boston" "Philadelphia" 2).recommendation.reason)
      = claimRecommendation
          (compare_travel_options "Boston" "Philadelphia" 2).driving.total_cost
          (compare_travel_options "Boston" "Philadelphia" 2).flying.total_cost
          (compare_travel_options "Boston" "Philadelphia" 2).driving.total_time_hours
          (compare_travel_options "Boston" "Philadelphia" 2).flying.total_time_hours
          2) :=
  ⟨by decide, C6_recommendation_policy "Boston" "Philadelphia" 2 (by decide)⟩

/-- Helper: the Charleston → St Thomas pair is in neither lookup table, so
the comparator uses the default estimates (300 driving miles, a 200 dollar
one-way fare): driving costs 196.50 against a 400-dollar-per-person round
trip, and the recommendation is driving for any party of at least one. -/
theorem charleston_st_thomas_eval (numTravelers : ℕ) (h : 1 ≤ numTravelers) :
    (compare_travel_options "Charleston" "St Thomas" numTravelers).driving.total_cost
        = 196.5
    ∧ (compare_travel_options "Charleston" "St Thomas" numTravelers).flying.total_cost
        = 400 * numTravelers
    ∧ (compare_travel_options "Charleston" "St Thomas" numTravelers).driving.cost_breakdown.gas_cost
        = 84
    ∧ (compare_travel_options "Charleston" "St Thomas" numTravelers).driving.cost_breakdown.wear_and_tear
        = 60
    ∧ (compare_travel_options "Charleston" "St Thomas" numTravelers).driving.cost_breakdown.tolls
        = 15
    ∧ (compare_travel_options "Charleston" "St Thomas" numTravelers).driving.cost_breakdown.parking
        = 37.5
    ∧ (compare_travel_options "Charleston" "St Thomas" numTravelers).recommendation.preferred
        = "driving"
    ∧ (compare_travel_options "Charleston" "St Thomas" numTravelers).recommendation.reason
        = "significantly cheaper" := by
  have hd : get_driving_distance "Charleston" "St Thomas" = (300, 300 / 65) := by
    unfold get_driving_distance
    have h1 : lowerStr "Charleston" ++ "-" ++ lowerStr "St Thomas"
        = "charleston-st thomas" := by decide
    have h2 : lowerStr "St Thomas" ++ "-" ++ lowerStr "Charleston"
        = "st thomas-charleston" := by decide
    rw [h1, h2]
    rfl
  have hf : get_flight_cost "Charleston" "St Thomas" numTravelers
      = { price_per_person := 200 * 2, total_cost := 200 * 2 * numTravelers,
          flight_duration := 2.5, total_travel_time := 2.5 + 2 } := by
    unfold get_flight_cost
    have h1 : lowerStr "Charleston" ++ "-" ++ lowerStr "St Thomas"
        = "charleston-st thomas" := by decide
    have h2 : lowerStr "St Thomas" ++ "-" ++ lowerStr "Charleston"
        = "st thomas-charleston" := by decide
    rw [h1, h2]
    rfl
  have hdc : calculate_driving_cost 300 numTravelers
      = { gas_cost := 84, wear_and_tear := 60, tolls := 15, parking := 37.5,
          total_per_group := 196.5,
          total_per_person := 196.5 / numTravelers } := by
    unfold calculate_driving_cost
    have hm : min (50 : ℚ) (300 * 0.05) = 15 := by
      rw [min_eq_right] <;> norm_num
    norm_num [hm]
  have hpick : pickRecommendation 196.5 (200 * 2 * (numTravelers : ℚ))
      (300 / 65 * 2) ((2.5 + 2) * 2) numTravelers
      = ("driving", "significantly cheaper") := by
    unfold pickRecommendation
    rw [if_pos]
    have hn : (1 : ℚ) ≤ numTravelers := by exact_mod_cast h
    linarith
  unfold compare_travel_options
  rw [hd]
  dsimp only
  rw [hdc, hf]
  dsimp only
  rw [hpick]
  refine ⟨rfl, by ring_nf, rfl, rfl, rfl, rfl, rfl, rfl⟩

/-- C7 (amended): the code has no flight-only classification: for origin
Charleston and destination St Thomas (a pair in neither lookup table) the
comparator silently uses the default 300-mile driving estimate, every
driving cost field is positive (no `available` flag exists in the
comparison), and the recommendation is driving — "significantly cheaper" —
for every party size of at least 1, not flying. -/
theorem C7_charleston_st_thomas (numTravelers : ℕ) (h : 1 ≤ numTravelers) :
    (compare_travel_options "Charleston" "St Thomas" numTravelers).recommendation.preferred
        = "driving"
    ∧ (compare_travel_options "Charleston" "St Thomas" numTravelers).recommendation.reason
        = "significantly cheaper"
    ∧ (compare_travel_options "Charleston" "St Thomas" numTravelers).driving.total_cost
        = 196.5
    ∧ 0 < (compare_travel_options "Charleston" "St Thomas" numTravelers).driving.cost_breakdown.gas_cost
    ∧ 0 < (compare_travel_options "Charleston" "St Thomas" numTravelers).driving.cost_breakdown.wear_and_tear
    ∧ 0 < (compare_travel_options "Charleston" "St Thomas" numTravelers).driving.cost_breakdown.tolls
    ∧ 0 < (compare_travel_options "Charleston" "St Thomas" numTravelers).driving.cost_breakdown.parking
    ∧ (compare_travel_options "Charleston" "St Thomas" numTravelers).flying.total_cost
        = 400 * numTravelers := by
  obtain ⟨h1, h2, h3, h4, h5, h6, h7, h8⟩ := charleston_st_thomas_eval numTravelers h
  refine ⟨h7, h8, h1, ?_, ?_, ?_, ?_, h2⟩
  · rw [h3]; norm_num
  · rw [h4]; norm_num
  · rw [h5]; norm_num
  · rw [h6]; norm_num

/-- C7 witness: the single-traveler instantiation. -/
theorem C7_charleston_st_thomas_witness :
    (1 : ℕ) ≤ 1 ∧
    ((compare_travel_options "Charleston" "St Thomas" 1).recommendation.preferred
        = "driving"
    ∧ (compare_travel_options "Charleston" "St Thomas" 1).recommendation.reason
        = "significantly cheaper"
    ∧ (compare_travel_options "Charleston" "St Thomas" 1).driving.total_cost
        = 196.5
    ∧ 0 < (compare_travel_options "Charleston" "St Thomas" 1).driving.cost_breakdown.gas_cost
    ∧ 0 < (compare_travel_options "Charleston" "St Thomas" 1).driving.cost_breakdown.wear_and_tear
    ∧ 0 < (compare_travel_options "Charleston" "St Thomas" 1).driving.cost_breakdown.tolls
    ∧ 0 < (compare_travel_options "Charleston" "St Thomas" 1).driving.cost_breakdown.parking
    ∧ (compare_travel_options "Charleston" "St Thomas" 1).flying.total_cost
        = 400 * 1) :=
  ⟨by decide, C7_charleston_st_thomas 1 (by decide)⟩

/-- C7 counterexample: on the claimed flight-only scenario (Charleston →
St Thomas, one traveler) the comparator prefers driving, not flying, and
the driving cost fields are non-zero. -/
theorem C7_counterexample :
    (compare_travel_options "Charleston" "St Thomas" 1).recommendation.preferred
        ≠ "flying"
    ∧ (compare_travel_options "Charleston" "St Thomas" 1).driving.total_cost ≠ 0 := by
  obtain ⟨h1, _, _, _, _, _, h7, _⟩ := charleston_st_thomas_eval 1 (by decide)
  constructor
  · rw [h7]; decide
  · rw [h1]; norm_num

/-- Helper: with no interests the bonus fold yields 0. -/
theorem interestBonus_nil (tags : List String) : interestBonus [] tags = 0 := rfl

/-- Helper: with no interests and sunny weather, an item scores 0.6 when
tagged outdoor and 0.5 otherwise. -/
theorem scoreItem_no_interests (it : Item) :
    scoreItem [] (some "sunny") it
      = ⟨it, if it.tags.contains "outdoor" then 0.6 else 0.5⟩ := by
  unfold scoreItem
  rw [interestBonus_nil]
  by_cases hc : it.tags.contains "outdoor" = true
  · have hwb : weatherBonus (some "sunny") it.tags = 0.1 := by
      unfold weatherBonus
      rw [if_pos ⟨rfl, hc⟩]
    rw [hwb]
    simp only [ScoredItem.mk.injEq, true_and]
    rw [if_pos hc, min_eq_right (by norm_num : (0.5 : ℚ) + 0 + 0.1 ≤ 1)]
    norm_num
  · have hwb : weatherBonus (some "sunny") it.tags = 0 := by
      unfold weatherBonus
      rw [if_neg (fun hcc => hc hcc.2), if_neg]
      simp
    rw [hwb]
    simp only [ScoredItem.mk.injEq, true_and]
    rw [if_neg hc, min_eq_right (by norm_num : (0.5 : ℚ) + 0 + 0 ≤ 1)]
    norm_num

/-- Helper: sorting does not change the score sum. -/
theorem sumScores_evaluator (items : List Item) (interests : List String)
    (condition : Option String) :
    sumScores (function_tool_evaluator items interests condition)
      = sumScores (scoreItems items interests condition) := by
  unfold sumScores
  exact ((List.mergeSort_perm _ _).map ScoredItem.score).sum_eq

/-- Helper: the evaluator preserves the item count. -/
theorem length_evaluator (items : List Item) (interests : List String)
    (condition : Option String) :
    (function_tool_evaluator items interests condition).length = items.length := by
  unfold function_tool_evaluator
  rw [(List.mergeSort_perm _ _).length_eq]
  simp [scoreItems]

/-- Helper: total score of the fixed activity pool with no interests
(5 outdoor items at 0.6, 7 others at 0.5). -/
theorem sum_pipelineActivities :
    sumScores (scoreItems pipelineActivities [] pipelineWeather) = 6.5 := by
  simp only [scoreItems, pipelineActivities, pipelineWeather, List.map_cons,
    List.map_nil, scoreItem_no_interests]
  simp only [sumScores, List.map_cons, List.map_nil, List.sum_cons, List.sum_nil]
  simp
  norm_num

/-- Helper: total score of the fixed restaurant pool with no interests
(2 outdoor items at 0.6, 5 others at 0.5). -/
theorem sum_pipelineRestaurants :
    sumScores (scoreItems pipelineRestaurants [] pipelineWeather) = 3.7 := by
  simp only [scoreItems, pipelineRestaurants, pipelineWeather, List.map_cons,
    List.map_nil, scoreItem_no_interests]
  simp only [sumScores, List.map_cons, List.map_nil, List.sum_cons, List.sum_nil]
  simp
  norm_num

/-- C5 counterexample: in the pipeline run with no interests and no
festivals, the confidence score is (6.5/12 + 3.7/7)/2 ≈ 0.5351, while the
average over the combined 19 scored items is 10.2/19 ≈ 0.5368 — the two
disagree, so the confidence is not the combined-collection average. -/
theorem C5_counterexample :
    pipelineConfidence [] []
      ≠ claimCombinedAverage (pipelineScoredActivities [] [])
          (pipelineScoredRestaurants []) := by
  have hA : pipelineScoredActivities [] []
      = function_tool_evaluator pipelineActivities [] pipelineWeather := by
    unfold pipelineScoredActivities
    simp
  have hsumA : sumScores (pipelineScoredActivities [] []) = 6.5 := by
    rw [hA, sumScores_evaluator, sum_pipelineActivities]
  have hlenA : (pipelineScoredActivities [] []).length = 12 := by
    rw [hA, length_evaluator]
    rfl
  have hsumR : sumScores (pipelineScoredRestaurants []) = 3.7 := by
    unfold pipelineScoredRestaurants
    rw [sumScores_evaluator, sum_pipelineRestaurants]
  have hlenR : (pipelineScoredRestaurants []).length = 7 := by
    unfold pipelineScoredRestaurants
    rw [length_evaluator]
    rfl
  have hA0 : ¬(pipelineScoredActivities [] []).isEmpty = true := by
    rw [List.isEmpty_iff]
    intro hh
    rw [hh] at hlenA
    simp at hlenA
  have hR0 : ¬(pipelineScoredRestaurants []).isEmpty = true := by
    rw [List.isEmpty_iff]
    intro hh
    rw [hh] at hlenR
    simp at hlenR
  unfold pipelineConfidence confidenceOf claimCombinedAverage
  rw [if_neg hA0, if_neg hR0, hsumA, hsumR, hlenA, hlenR]
  norm_num

/-- C5 (amended): for every pipeline run (any interests, any festival
list) the confidence score equals the mean of the two per-pool averages —
the average scored-activity score and the average scored-restaurant
score — not the average over the combined collection.  (The variant
pipeline in `planner_backup.py` does use the combined average, plus a 0.1
boost when its AI optimizer ran.) -/
theorem C5_confidence_mean_of_means (interests : List String)
    (festivalsEvents : List Item) :
    pipelineConfidence interests festivalsEvents
      = (sumScores (pipelineScoredActivities interests festivalsEvents)
            / (pipelineScoredActivities interests festivalsEvents).length
          + sumScores (pipelineScoredRestaurants interests)
            / (pipelineScoredRestaurants interests).length) / 2 := by
  have hA : (pipelineScoredActivities interests festivalsEvents) ≠ [] := by
    unfold pipelineScoredActivities
    split
    · intro hh
      have hlen := congrArg List.length hh
      rw [length_evaluator] at hlen
      simp [pipelineActivities] at hlen
    · intro hh
      rcases List.append_eq_nil.mp hh with ⟨h1, _⟩
      have hlen := congrArg List.length h1
      rw [length_evaluator] at hlen
      simp [pipelineActivities] at hlen
  have hR : (pipelineScoredRestaurants interests) ≠ [] := by
    intro hh
    have hlen := congrArg List.length hh
    unfold pipelineScoredRestaurants at hlen
    rw [length_evaluator] at hlen
    simp [pipelineRestaurants] at hlen
  unfold pipelineConfidence confidenceOf
  rw [if_neg (by rwa [List.isEmpty_iff]), if_neg (by rwa [List.isEmpty_iff])]

/-- Helper: the day loop emits exactly one record per remaining day, keyed
by the formatted ordinals in chronological order, whatever the pools and
used sets are. -/
theorem optimizerAux_keys (shA shR : ℕ → List Item → List Item)
    (fmt : ℕ → String) (availA availR : List Item) (startOrd : ℕ) :
    ∀ (n day : ℕ) (usedA usedR : List String) (recs : List DayRec),
      optimizerAux shA shR fmt availA availR startOrd n day usedA usedR = .ok recs →
      recs.map DayRec.dateStr
          = (List.range n).map (fun k => fmt (startOrd + (day + k))) := by
  intro n
  induction n with
  | zero =>
    intro day usedA usedR recs hok
    simp only [optimizerAux, Except.ok.injEq] at hok
    subst hok
    simp
  | succ n ih =>
    intro day usedA usedR recs hok
    unfold optimizerAux at hok
    cases hp : planDay (shA day) (shR day) (fmt (startOrd + day)) availA availR usedA usedR with
    | error e => rw [hp] at hok; exact absurd hok (by simp)
    | ok st =>
      obtain ⟨plan, usedA1, usedR1⟩ := st
      rw [hp] at hok
      dsimp only at hok
      cases ho : optimizerAux shA shR fmt availA availR startOrd n (day + 1) usedA1 usedR1 with
      | error e => rw [ho] at hok; exact absurd hok (by simp)
      | ok rest =>
        rw [ho] at hok
        simp only [Except.ok.injEq] at hok
        subst hok
        have hrest := ih (day + 1) usedA1 usedR1 rest ho
        simp only [List.map_cons, hrest, List.range_succ_eq_map, List.map_map]
        rw [List.cons_eq_cons]
        constructor
        · congr 1
        · apply List.map_congr_left
          intro k _
          simp only [Function.comp_apply]
          congr 1
          omega

/-- C2: for every valid date range (start ≤ end) and any pools, whenever
`function_tool_optimizer` returns an itinerary, it has exactly
(end − start) + 1 keys, one per ordinal of the inclusive range in order —
each key the `strftime` rendering of one date of the range — and the keys
are pairwise distinct because `strftime` is injective on ordinals. -/
theorem C2_itinerary_coverage (shA shR : ℕ → List Item → List Item)
    (fmt : ℕ → String) (activities restaurants : List Item)
    (startOrd endOrd : ℕ) (it : List (String × DayPlan))
    (hse : startOrd ≤ endOrd)
    (hok : function_tool_optimizer shA shR fmt activities restaurants
        startOrd endOrd = .ok it) :
    it.map Prod.fst
        = (List.range (endOrd - startOrd + 1)).map (fun k => fmt (startOrd + k))
    ∧ it.length = endOrd - startOrd + 1
    ∧ (Function.Injective fmt → (it.map Prod.fst).Nodup) := by
  have hdays : (((endOrd : ℤ) - (startOrd : ℤ) + 1).toNat) = endOrd - startOrd + 1 := by
    omega
  unfold function_tool_optimizer at hok
  rw [hdays] at hok
  dsimp only at hok
  cases haux : optimizerAux shA shR fmt activities restaurants startOrd
      (endOrd - startOrd + 1) 0 [] [] with
  | error e => rw [haux] at hok; exact absurd hok (by simp [Except.map])
  | ok recs =>
    rw [haux] at hok
    simp only [Except.map, Except.ok.injEq] at hok
    subst hok
    have hkeys := optimizerAux_keys shA shR fmt activities restaurants startOrd
      (endOrd - startOrd + 1) 0 [] [] recs haux
    have hmap : (recs.map (fun r => (r.dateStr, r.plan))).map Prod.fst
        = recs.map DayRec.dateStr := by
      simp [List.map_map]
    have hzero : (List.range (endOrd - startOrd + 1)).map (fun k => fmt (startOrd + (0 + k)))
        = (List.range (endOrd - startOrd + 1)).map (fun k => fmt (startOrd + k)) := by
      apply List.map_congr_left
      intro k _
      congr 1
      omega
    refine ⟨by rw [hmap, hkeys, hzero], ?_, ?_⟩
    · have := congrArg List.length (hmap.trans (hkeys.trans hzero))
      simpa using this
    · intro hinj
      rw [hmap, hkeys, hzero]
      refine (List.nodup_range _).map ?_
      intro a b hab
      have := hinj hab
      omega

/-- C2 witness: a two-day run on empty pools. -/
theorem C2_itinerary_coverage_witness :
    (0 : ℕ) ≤ 1 ∧
    (function_tool_optimizer (fun _ l => l) (fun _ l => l) (fun n : ℕ => toString n)
        [] [] 0 1
      = .ok [("0", ⟨none, none, none⟩), ("1", ⟨none, none, none⟩)]) ∧
    ([("0", (⟨none, none, none⟩ : DayPlan)), ("1", ⟨none, none, none⟩)].map Prod.fst
        = (List.range (1 - 0 + 1)).map (fun k => (fun n : ℕ => toString n) (0 + k))
    ∧ [("0", (⟨none, none, none⟩ : DayPlan)), ("1", ⟨none, none, none⟩)].length
        = 1 - 0 + 1
    ∧ (Function.Injective (fun n : ℕ => toString n) →
        ([("0", (⟨none, none, none⟩ : DayPlan)), ("1", ⟨none, none, none⟩)].map
          Prod.fst).Nodup)) :=
  ⟨by decide, by rfl,
    C2_itinerary_coverage (fun _ l => l) (fun _ l => l) (fun n : ℕ => toString n)
      [] [] 0 1 [("0", ⟨none, none, none⟩), ("1", ⟨none, none, none⟩)]
      (by decide) (by rfl)⟩

/-- Helper: the reset step (`src/planner.py:477-487`) either leaves the
used set and the unused pool alone (when the unused pool is non-empty or
the whole pool is empty), or clears the used set and hands over the
reshuffled pool (when the pool is non-empty but fully used). -/
theorem resetCase (avail : List Item) (used : List String)
    (sh : List Item → List Item) :
    ((if (avail.filter (fun a => !(used.contains a.name))).isEmpty && !avail.isEmpty
        then (([] : List String), sh avail)
        else (used, avail.filter (fun a => !(used.contains a.name))))
      = (used, avail.filter (fun a => !(used.contains a.name)))
      ∧ (avail.filter (fun a => !(used.contains a.name)) ≠ [] ∨ avail = []))
    ∨ ((if (avail.filter (fun a => !(used.contains a.name))).isEmpty && !avail.isEmpty
        then (([] : List String), sh avail)
        else (used, avail.filter (fun a => !(used.contains a.name))))
      = (([] : List String), sh avail)
      ∧ avail.filter (fun a => !(used.contains a.name)) = [] ∧ avail ≠ []) := by
  by_cases hc : ((avail.filter (fun a => !(used.contains a.name))).isEmpty
      && !avail.isEmpty) = true
  · right
    obtain ⟨h1, h2⟩ := Bool.and_eq_true_iff.mp hc
    refine ⟨if_pos hc, List.isEmpty_iff.mp h1, ?_⟩
    intro he
    rw [he] at h2
    simp at h2
  · left
    refine ⟨if_neg hc, ?_⟩
    by_cases hf : avail.filter (fun a => !(used.contains a.name)) = []
    · right
      by_contra hne
      apply hc
      rw [hf]
      simp only [List.isEmpty_nil, Bool.true_and, Bool.not_eq_true']
      cases he : avail.isEmpty
      · rfl
      · exact absurd (List.isEmpty_iff.mp he) hne
    · exact Or.inl hf

/-- Helper: the per-item festival test succeeds on any item that carries a
start date whenever festival-typed. -/
theorem isFestivalToday_isOk (ds : String) (a : Item)
    (ha : isFestivalType a = true → a.startDate ≠ none) :
    ∃ b, isFestivalToday ds a = .ok b := by
  unfold isFestivalToday
  by_cases hf : isFestivalType a = true
  · rw [if_pos hf]
    cases hs : a.startDate with
    | none => exact absurd hs (ha hf)
    | some sd => exact ⟨_, rfl⟩
  · rw [if_neg hf]
    exact ⟨false, rfl⟩

/-- Helper: the festival comprehension succeeds on a list of items with
dated festivals. -/
theorem filterE_isOk (ds : String) (l : List Item)
    (h : ∀ a ∈ l, isFestivalType a = true → a.startDate ≠ none) :
    ∃ r, filterE (isFestivalToday ds) l = .ok r := by
  induction l with
  | nil => exact ⟨[], rfl⟩
  | cons a as ih =>
    obtain ⟨b, hb⟩ := isFestivalToday_isOk ds a (h a (List.mem_cons_self a as))
    obtain ⟨r, hr⟩ := ih (fun x hx => h x (List.mem_cons_of_mem a hx))
    unfold filterE
    rw [hb, hr]
    exact ⟨_, rfl⟩

/-- Helper: a successful festival comprehension returns a sublist of its
input. -/
theorem filterE_sublist {p : Item → Except String Bool} :
    ∀ {l r : List Item}, filterE p l = .ok r → r.Sublist l := by
  intro l
  induction l with
  | nil =>
    intro r h
    simp only [filterE, Except.ok.injEq] at h
    subst h
    exact List.Sublist.refl []
  | cons a as ih =>
    intro r h
    unfold filterE at h
    cases hp : p a with
    | error e => rw [hp] at h; exact absurd h (by simp)
    | ok b =>
      rw [hp] at h
      dsimp only at h
      cases hr : filterE p as with
      | error e => rw [hr] at h; exact absurd h (by simp)
      | ok rest =>
        rw [hr] at h
        dsimp only at h
        simp only [Except.ok.injEq] at h
        subst h
        cases b with
        | true => exact (ih hr).cons₂ a
        | false => exact (ih hr).cons a

/-- Helper: one day's planning succeeds whenever the activity pool's
festival-typed members are dated and the shuffle permutes. -/
theorem planDay_isOk (sA sR : List Item → List Item) (ds : String)
    (availA availR : List Item) (usedA usedR : List String)
    (hwf : DatedFestivals availA) (hsh : ∀ l, (sA l).Perm l) :
    ∃ st, planDay sA sR ds availA availR usedA usedR = .ok st := by
  unfold planDay
  simp only []
  have hwfF : ∀ (l : List Item), (∀ a ∈ l, a ∈ availA) →
      ∃ r, filterE (isFestivalToday ds) l = .ok r :=
    fun l hl => filterE_isOk ds l (fun a ha hft => hwf a (hl a ha) hft)
  rcases resetCase availA usedA sA with ⟨hEq, -⟩ | ⟨hEq, -, -⟩ <;>
    rcases resetCase availR usedR sR with ⟨hEq2, -⟩ | ⟨hEq2, -, -⟩ <;>
    rw [hEq, hEq2] <;>
    dsimp only
  · obtain ⟨fest, hfest⟩ := hwfF _ (fun a ha => (List.mem_filter.mp ha).1)
    rw [hfest]
    exact ⟨_, rfl⟩
  · obtain ⟨fest, hfest⟩ := hwfF _ (fun a ha => (List.mem_filter.mp ha).1)
    rw [hfest]
    exact ⟨_, rfl⟩
  · obtain ⟨fest, hfest⟩ := hwfF _ (fun a ha => (hsh availA).mem_iff.mp ha)
    rw [hfest]
    exact ⟨_, rfl⟩
  · obtain ⟨fest, hfest⟩ := hwfF _ (fun a ha => (hsh availA).mem_iff.mp ha)
    rw [hfest]
    exact ⟨_, rfl⟩

/-- Helper: the whole day loop succeeds under the same conditions. -/
theorem optimizerAux_isOk (shA shR : ℕ → List Item → List Item)
    (fmt : ℕ → String) (availA availR : List Item) (startOrd : ℕ)
    (hwf : DatedFestivals availA) (hshA : IsShuffle shA) :
    ∀ (n day : ℕ) (usedA usedR : List String),
      ∃ recs, optimizerAux shA shR fmt availA availR startOrd n day usedA usedR
        = .ok recs := by
  intro n
  induction n with
  | zero => exact fun day usedA usedR => ⟨[], rfl⟩
  | succ n ih =>
    intro day usedA usedR
    obtain ⟨st, hst⟩ := planDay_isOk (shA day) (shR day) (fmt (startOrd + day))
      availA availR usedA usedR hwf (hshA day)
    obtain ⟨plan, usedA1, usedR1⟩ := st
    obtain ⟨rest, hrest⟩ := ih (day + 1) usedA1 usedR1
    unfold optimizerAux
    rw [hst]
    dsimp only
    rw [hrest]
    exact ⟨_, rfl⟩

/-- Helper: decomposition of a successful `planDay` run into its selection
core, the festival comprehension and the reset decision on each pool. -/
theorem planDay_cases (sA sR : List Item → List Item) (ds : String)
    (availA availR : List Item) (usedA usedR : List String)
    (plan : DayPlan) (uA' uR' : List String)
    (h : planDay sA sR ds availA availR usedA usedR = .ok (plan, uA', uR')) :
    ∃ (uA0 : List String) (unA : List Item) (uR0 : List String)
      (unR : List Item) (fest : List Item),
      filterE (isFestivalToday ds) unA = .ok fest
      ∧ planDayCore fest unA unR availA uA0 uR0 = (plan, uA', uR')
      ∧ ((uA0 = usedA ∧ unA = availA.filter (fun a => !(usedA.contains a.name))
            ∧ (availA.filter (fun a => !(usedA.contains a.name)) ≠ [] ∨ availA = []))
         ∨ (uA0 = [] ∧ unA = sA availA
            ∧ availA.filter (fun a => !(usedA.contains a.name)) = [] ∧ availA ≠ []))
      ∧ ((uR0 = usedR ∧ unR = availR.filter (fun r => !(usedR.contains r.name))
            ∧ (availR.filter (fun r => !(usedR.contains r.name)) ≠ [] ∨ availR = []))
         ∨ (uR0 = [] ∧ unR = sR availR
            ∧ availR.filter (fun r => !(usedR.contains r.name)) = [] ∧ availR ≠ [])) := by
  unfold planDay at h
  simp only [] at h
  rcases resetCase availA usedA sA with ⟨hEqA, hsideA⟩ | ⟨hEqA, hfA, hneA⟩ <;>
    rcases resetCase availR usedR sR with ⟨hEqR, hsideR⟩ | ⟨hEqR, hfR, hneR⟩ <;>
    rw [hEqA, hEqR] at h <;>
    dsimp only at h
  · cases hf : filterE (isFestivalToday ds)
        (availA.filter (fun a => !(usedA.contains a.name))) with
    | error e => rw [hf] at h; exact absurd h (by simp)
    | ok fest =>
      rw [hf] at h
      dsimp only at h
      simp only [Except.ok.injEq] at h
      exact ⟨usedA, _, usedR, _, fest, hf, h,
        Or.inl ⟨rfl, rfl, hsideA⟩, Or.inl ⟨rfl, rfl, hsideR⟩⟩
  · cases hf : filterE (isFestivalToday ds)
        (availA.filter (fun a => !(usedA.contains a.name))) with
    | error e => rw [hf] at h; exact absurd h (by simp)
    | ok fest =>
      rw [hf] at h
      dsimp only at h
      simp only [Except.ok.injEq] at h
      exact ⟨usedA, _, [], _, fest, hf, h,
        Or.inl ⟨rfl, rfl, hsideA⟩, Or.inr ⟨rfl, rfl, hfR, hneR⟩⟩
  · cases hf : filterE (isFestivalToday ds) (sA availA) with
    | error e => rw [hf] at h; exact absurd h (by simp)
    | ok fest =>
      rw [hf] at h
      dsimp only at h
      simp only [Except.ok.injEq] at h
      exact ⟨[], _, usedR, _, fest, hf, h,
        Or.inr ⟨rfl, rfl, hfA, hneA⟩, Or.inl ⟨rfl, rfl, hsideR⟩⟩
  · cases hf : filterE (isFestivalToday ds) (sA availA) with
    | error e => rw [hf] at h; exact absurd h (by simp)
    | ok fest =>
      rw [hf] at h
      dsimp only at h
      simp only [Except.ok.injEq] at h
      exact ⟨[], _, [], _, fest, hf, h,
        Or.inr ⟨rfl, rfl, hfA, hneA⟩, Or.inr ⟨rfl, rfl, hfR, hneR⟩⟩

/-- Helper: with an empty unused activity pool, an empty festival list and
an empty pool, a day's core selection leaves morning and afternoon empty
and the activity used set unchanged. -/
theorem planDayCore_no_acts (unusedR : List Item) (usedA usedR : List String) :
    ∃ ev usedR1, planDayCore [] [] unusedR [] usedA usedR
      = (⟨none, none, ev⟩, usedA, usedR1) := by
  cases unusedR with
  | nil => exact ⟨none, usedR, rfl⟩
  | cons r rs => exact ⟨some r, r.name :: usedR, rfl⟩

/-- Helper: the evening slot is empty exactly when the unused restaurant
pool is empty, and the restaurant used set grows by the head's name
otherwise; the evening side of the core is independent of the activity
side. -/
theorem planDayCore_evening (fest unA : List Item) (availA : List Item)
    (uA uR : List String) :
    (∀ unR, unR = ([] : List Item) →
      (planDayCore fest unA unR availA uA uR).1.evening = none
      ∧ (planDayCore fest unA unR availA uA uR).2.2 = uR)
    ∧ (∀ (r : Item) (rs : List Item),
      (planDayCore fest unA (r :: rs) availA uA uR).1.evening = some r
      ∧ (planDayCore fest unA (r :: rs) availA uA uR).2.2 = r.name :: uR) := by
  constructor
  · rintro unR rfl
    exact ⟨rfl, rfl⟩
  · intro r rs
    exact ⟨rfl, rfl⟩

/-- Helper: core selection for a one-item activity pool on its first pass,
festival case: the item takes the morning slot, the afternoon stays empty
(no different-typed alternative exists). -/
theorem planDayCore_single_fest (a : Item) (unR : List Item) (uR0 : List String) :
    (planDayCore [a] [a] unR [a] [] uR0).1.morning = some a
    ∧ (planDayCore [a] [a] unR [a] [] uR0).1.afternoon = none
    ∧ (planDayCore [a] [a] unR [a] [] uR0).2.1 = [a.name] := by
  unfold planDayCore morningSel afternoonSel
  simp [List.erase_cons_head]

/-- Helper: core selection for a one-item activity pool on its first pass,
non-festival case: the item takes the morning slot (outdoor-preferred or
not), the afternoon stays empty. -/
theorem planDayCore_single_nofest (a : Item) (unR : List Item) (uR0 : List String) :
    (planDayCore [] [a] unR [a] [] uR0).1.morning = some a
    ∧ (planDayCore [] [a] unR [a] [] uR0).1.afternoon = none
    ∧ (planDayCore [] [a] unR [a] [] uR0).2.1 = [a.name] := by
  unfold planDayCore morningSel afternoonSel
  by_cases h : "outdoor" ∈ a.tags
  · simp [List.erase_cons_head, h]
  · simp [List.erase_cons_head, h]

/-- Helper: on the first day of a one-activity trip, the morning gets the
activity and the afternoon stays empty. -/
theorem planDay_single (sA sR : List Item → List Item) (ds : String)
    (availR : List Item) (usedR : List String) (a : Item)
    (hwf : isFestivalType a = true → a.startDate ≠ none)
    (hsh : ∀ l, (sA l).Perm l) :
    ∃ ev uR', planDay sA sR ds [a] availR [] usedR
      = .ok (⟨some a, none, ev⟩, [a.name], uR') := by
  have hwfl : DatedFestivals [a] := by
    intro x hx hft
    rcases List.mem_singleton.mp hx with rfl
    exact hwf hft
  obtain ⟨⟨plan, uA', uR'⟩, hst⟩ :=
    planDay_isOk sA sR ds [a] availR [] usedR hwfl hsh
  obtain ⟨uA0, unA, uR0, unR, fest, hfest, hcore, hAcase, hRcase⟩ :=
    planDay_cases sA sR ds [a] availR [] usedR plan uA' uR' hst
  have hfilter : ([a].filter (fun x => !(([] : List String).contains x.name))) = [a] := by
    simp
  rcases hAcase with ⟨huA0, hunA, -⟩ | ⟨-, -, hfA, -⟩
  · rw [hfilter] at hunA
    subst huA0
    subst hunA
    have hsub := filterE_sublist hfest
    have hfests : fest = [] ∨ fest = [a] := by
      cases hsub with
      | cons _ h1 => exact Or.inl (List.sublist_nil.mp h1)
      | cons₂ _ h1 => exact Or.inr (by rw [List.sublist_nil.mp h1])
    rcases hfests with rfl | rfl
    · obtain ⟨hm, ha, hu⟩ := planDayCore_single_nofest a unR uR0
      rw [hcore] at hm ha hu
      refine ⟨plan.evening, uR', ?_⟩
      rw [hst]
      have hplan : plan = ⟨some a, none, plan.evening⟩ := by
        cases plan
        simp_all
      rw [← hplan, ← hu]
    · obtain ⟨hm, ha, hu⟩ := planDayCore_single_fest a unR uR0
      rw [hcore] at hm ha hu
      refine ⟨plan.evening, uR', ?_⟩
      rw [hst]
      have hplan : plan = ⟨some a, none, plan.evening⟩ := by
        cases plan
        simp_all
      rw [← hplan, ← hu]
  · rw [hfilter] at hfA
    exact absurd hfA (by simp)

/-- Helper: with an empty activity pool every planned day leaves the
morning and afternoon slots empty. -/
theorem optimizerAux_no_acts (shA shR : ℕ → List Item → List Item)
    (fmt : ℕ → String) (availR : List Item) (startOrd : ℕ) :
    ∀ (n day : ℕ) (usedA usedR : List String) (recs : List DayRec),
      optimizerAux shA shR fmt [] availR startOrd n day usedA usedR = .ok recs →
      ∀ r ∈ recs, r.plan.morning = none ∧ r.plan.afternoon = none := by
  intro n
  induction n with
  | zero =>
    intro day uA uR recs h r hr
    simp only [optimizerAux, Except.ok.injEq] at h
    subst h
    simp at hr
  | succ n ih =>
    intro day uA uR recs h r hr
    unfold optimizerAux at h
    cases hp : planDay (shA day) (shR day) (fmt (startOrd + day)) [] availR uA uR with
    | error e => rw [hp] at h; exact absurd h (by simp)
    | ok st =>
      obtain ⟨plan, uA1, uR1⟩ := st
      rw [hp] at h
      dsimp only at h
      cases ho : optimizerAux shA shR fmt [] availR startOrd n (day + 1) uA1 uR1 with
      | error e => rw [ho] at h; exact absurd h (by simp)
      | ok rest =>
        rw [ho] at h
        simp only [Except.ok.injEq] at h
        subst h
        rcases List.mem_cons.mp hr with rfl | hmem
        · obtain ⟨uA0, unA, uR0, unR, fest, hfest, hcore, hAcase, -⟩ :=
            planDay_cases _ _ _ _ _ _ _ _ _ _ hp
          rcases hAcase with ⟨-, hunA, -⟩ | ⟨-, -, -, hne⟩
          · have hunA' : unA = [] := by simpa using hunA
            subst hunA'
            have hfest' : fest = [] := by
              have : Except.ok (ε := String) ([] : List Item) = .ok fest := hfest
              simpa using this.symm
            subst hfest'
            obtain ⟨ev, uRx, hval⟩ := planDayCore_no_acts unR uA0 uR0
            rw [hval] at hcore
            have h1 := congrArg (fun x => x.1) hcore
            dsimp only at h1
            constructor
            · show plan.morning = none
              rw [← h1]
            · show plan.afternoon = none
              rw [← h1]
          · exact absurd rfl hne
        · exact ih (day + 1) uA1 uR1 rest ho r hmem

/-- Helper: with an empty restaurant pool every planned day leaves the
evening slot empty. -/
theorem optimizerAux_no_rests (shA shR : ℕ → List Item → List Item)
    (fmt : ℕ → String) (availA : List Item) (startOrd : ℕ) :
    ∀ (n day : ℕ) (usedA usedR : List String) (recs : List DayRec),
      optimizerAux shA shR fmt availA [] startOrd n day usedA usedR = .ok recs →
      ∀ r ∈ recs, r.plan.evening = none := by
  intro n
  induction n with
  | zero =>
    intro day uA uR recs h r hr
    simp only [optimizerAux, Except.ok.injEq] at h
    subst h
    simp at hr
  | succ n ih =>
    intro day uA uR recs h r hr
    unfold optimizerAux at h
    cases hp : planDay (shA day) (shR day) (fmt (startOrd + day)) availA [] uA uR with
    | error e => rw [hp] at h; exact absurd h (by simp)
    | ok st =>
      obtain ⟨plan, uA1, uR1⟩ := st
      rw [hp] at h
      dsimp only at h
      cases ho : optimizerAux shA shR fmt availA [] startOrd n (day + 1) uA1 uR1 with
      | error e => rw [ho] at h; exact absurd h (by simp)
      | ok rest =>
        rw [ho] at h
        simp only [Except.ok.injEq] at h
        subst h
        rcases List.mem_cons.mp hr with rfl | hmem
        · obtain ⟨uA0, unA, uR0, unR, fest, hfest, hcore, -, hRcase⟩ :=
            planDay_cases _ _ _ _ _ _ _ _ _ _ hp
          rcases hRcase with ⟨-, hunR, -⟩ | ⟨-, -, -, hne⟩
          · have hunR' : unR = [] := by simpa using hunR
            have hev := ((planDayCore_evening fest unA availA uA0 uR0).1 unR hunR').1
            have h1 := congrArg (fun x => x.1.evening) hcore
            dsimp only at h1
            show plan.evening = none
            exact h1.symm.trans hev
          · exact absurd rfl hne
        · exact ih (day + 1) uA1 uR1 rest ho r hmem

/-- C9 (amended): for every valid date range and pools whose
festival-typed activities carry a start date (all pools without festival
items in particular, empty pools included), `function_tool_optimizer`
returns normally; a run with an empty activity pool leaves every morning
and afternoon slot empty (null) and an empty restaurant pool leaves every
evening slot empty, rather than raising; a one-day trip with a one-item
activity pool puts that activity in the morning slot and leaves the
afternoon empty.  (Without the start-date condition the claim fails: see
the counterexample, where Python raises `TypeError`.) -/
theorem C9_optimizer_safety (shA shR : ℕ → List Item → List Item)
    (fmt : ℕ → String) (activities restaurants : List Item)
    (startOrd endOrd : ℕ) (hshA : IsShuffle shA)
    (hwf : DatedFestivals activities) :
    (∃ it, function_tool_optimizer shA shR fmt activities restaurants
        startOrd endOrd = .ok it)
    ∧ (∀ it, function_tool_optimizer shA shR fmt activities restaurants
        startOrd endOrd = .ok it →
        (activities = [] → ∀ e ∈ it, e.2.morning = none ∧ e.2.afternoon = none)
        ∧ (restaurants = [] → ∀ e ∈ it, e.2.evening = none)
        ∧ (startOrd = endOrd → ∀ a : Item, activities = [a] →
            ∃ ev, it = [(fmt startOrd, ⟨some a, none, ev⟩)])) := by
  constructor
  · obtain ⟨recs, hrecs⟩ := optimizerAux_isOk shA shR fmt activities restaurants
      startOrd hwf hshA (((endOrd : ℤ) - (startOrd : ℤ) + 1).toNat) 0 [] []
    refine ⟨recs.map (fun r => (r.dateStr, r.plan)), ?_⟩
    unfold function_tool_optimizer
    dsimp only
    rw [hrecs]
    rfl
  · intro it hit
    unfold function_tool_optimizer at hit
    dsimp only at hit
    cases haux : optimizerAux shA shR fmt activities restaurants startOrd
        (((endOrd : ℤ) - (startOrd : ℤ) + 1).toNat) 0 [] [] with
    | error e => rw [haux] at hit; exact absurd hit (by simp [Except.map])
    | ok recs =>
      rw [haux] at hit
      simp only [Except.map, Except.ok.injEq] at hit
      subst hit
      refine ⟨?_, ?_, ?_⟩
      · rintro rfl e he
        simp only [List.mem_map] at he
        obtain ⟨r, hr, rfl⟩ := he
        exact optimizerAux_no_acts shA shR fmt restaurants startOrd _ 0 [] []
          recs haux r hr
      · rintro rfl e he
        simp only [List.mem_map] at he
        obtain ⟨r, hr, rfl⟩ := he
        exact optimizerAux_no_rests shA shR fmt activities startOrd _ 0 [] []
          recs haux r hr
      · rintro rfl a rfl
        have hd : (((startOrd : ℤ) - (startOrd : ℤ) + 1).toNat) = 1 := by omega
        rw [hd] at haux
        obtain ⟨ev, uR', hpd⟩ := planDay_single (shA 0) (shR 0)
          (fmt (startOrd + 0)) restaurants [] a
          (fun hft => hwf a (List.mem_singleton.mpr rfl) hft) (hshA 0)
        unfold optimizerAux at haux
        rw [hpd] at haux
        dsimp only [optimizerAux] at haux
        simp only [Except.ok.injEq] at haux
        subst haux
        refine ⟨ev, ?_⟩
        simp

/-- C9 witness: a one-day run on a one-activity pool and no restaurants. -/
theorem C9_optimizer_safety_witness :
    (∃ it, function_tool_optimizer (fun _ l => l) (fun _ l => l)
        (fun n : ℕ => toString n) [{ name := "Solo Museum" }] [] 0 0 = .ok it)
    ∧ (∀ it, function_tool_optimizer (fun _ l => l) (fun _ l => l)
        (fun n : ℕ => toString n) [{ name := "Solo Museum" }] [] 0 0 = .ok it →
        ([{ name := "Solo Museum" }] = ([] : List Item) →
          ∀ e ∈ it, e.2.morning = none ∧ e.2.afternoon = none)
        ∧ (([] : List Item) = [] → ∀ e ∈ it, e.2.evening = none)
        ∧ ((0 : ℕ) = 0 → ∀ a : Item, [{ name := "Solo Museum" }] = [a] →
            ∃ ev, it = [((fun n : ℕ => toString n) 0, ⟨some a, none, ev⟩)])) :=
  C9_optimizer_safety (fun _ l => l) (fun _ l => l) (fun n : ℕ => toString n)
    [{ name := "Solo Museum" }] [] 0 0 (fun _ _ => List.Perm.refl _)
    (fun a ha hft => by
      rcases List.mem_singleton.mp ha with rfl
      exact absurd hft (by decide))

/-- C9 counterexample: a festival-typed activity without a start date
makes the optimizer raise — Python evaluates `None <= date_str` inside the
`festivals_today` comprehension and gets a `TypeError` — instead of
returning an itinerary. -/
theorem C9_counterexample :
    function_tool_optimizer (fun _ l => l) (fun _ l => l) (fun _ => "2025-06-01")
      [{ name := "Mystery Festival", itemType := some "Food Festival" }] [] 0 0
      = .error "TypeError: <= not supported between NoneType and str" := by
  rfl

/-- Helper: a Boolean filter and its complement split a list's length. -/
theorem length_filter_split (l : List Item) (p : Item → Bool) :
    (l.filter p).length + (l.filter (fun a => !(p a))).length = l.length := by
  induction l with
  | nil => rfl
  | cons a t ih =>
    by_cases h : p a = true
    · simp [List.filter_cons, h]
      omega
    · have h' : p a = false := by simpa using h
      simp [List.filter_cons, h']
      omega

/-- Helper: when pool names are distinct, at least `pool − used` items of
the pool are still unused. -/
theorem filter_unused_length (avail : List Item) (used : List String)
    (hnod : (avail.map Item.name).Nodup) :
    avail.length - used.length
      ≤ (avail.filter (fun a => !(used.contains a.name))).length := by
  have hsplit := length_filter_split avail (fun a => !(used.contains a.name))
  have hcong : avail.filter (fun a => !(!(used.contains a.name)))
      = avail.filter (fun a => used.contains a.name) := by
    apply List.filter_congr
    intro a _
    simp
  rw [hcong] at hsplit
  have hsub : ((avail.filter (fun a => used.contains a.name)).map Item.name) ⊆ used := by
    intro x hx
    simp only [List.mem_map] at hx
    obtain ⟨a, ha, rfl⟩ := hx
    have hc := (List.mem_filter.mp ha).2
    simpa using hc
  have hnd : ((avail.filter (fun a => used.contains a.name)).map Item.name).Nodup :=
    hnod.sublist ((List.filter_sublist _).map Item.name)
  have hle : (avail.filter (fun a => used.contains a.name)).length ≤ used.length := by
    have hsp := List.subperm_of_subset hnd hsub
    have hl := hsp.length_le
    simpa using hl
  omega

/-- Helper: with a non-empty unused pool the morning pick takes some
unused item, marks it used and erases it. -/
theorem morningSel_pick (festToday : List Item) (u : Item) (us : List Item)
    (usedA : List String) (hf : ∀ x ∈ festToday, x ∈ u :: us) :
    ∃ m, morningSel festToday (u :: us) usedA
      = (some m, m.name :: usedA, (u :: us).erase m) ∧ m ∈ u :: us := by
  cases festToday with
  | cons f fs =>
    exact ⟨f, rfl, hf f (List.mem_cons_self f fs)⟩
  | nil =>
    cases hOut : (u :: us).filter (fun a => a.tags.contains "outdoor") with
    | cons o os =>
      refine ⟨o, ?_, ?_⟩
      · unfold morningSel
        rw [hOut]
      · have ho : o ∈ (u :: us).filter (fun a => a.tags.contains "outdoor") := by
          rw [hOut]
          exact List.mem_cons_self o os
        exact (List.mem_filter.mp ho).1
    | nil =>
      refine ⟨u, ?_, List.mem_cons_self u us⟩
      unfold morningSel
      rw [hOut]

/-- Helper: with a non-empty remaining unused pool the afternoon pick
takes a remaining festival (not yet used) or the pool's head, marking it
used. -/
theorem afternoonSel_pick (festToday : List Item) (morning : Option Item)
    (usedA1 : List String) (w : Item) (ws : List Item) (availA : List Item) :
    ∃ a, afternoonSel festToday morning usedA1 (w :: ws) availA
      = (some a, a.name :: usedA1)
      ∧ ((a ∈ festToday ∧ ¬ a.name ∈ usedA1) ∨ a = w) := by
  cases hRF : festToday.filter (fun x => !(usedA1.contains x.name)) with
  | cons g gs =>
    refine ⟨g, ?_, Or.inl ?_⟩
    · unfold afternoonSel
      rw [hRF]
    · have hg : g ∈ festToday.filter (fun x => !(usedA1.contains x.name)) := by
        rw [hRF]
        exact List.mem_cons_self g gs
      have hg2 := List.mem_filter.mp hg
      refine ⟨hg2.1, ?_⟩
      simpa using hg2.2
  | nil =>
    refine ⟨w, ?_, Or.inr rfl⟩
    unfold afternoonSel
    rw [hRF]

/-- Helper: with the unused pool exhausted, the afternoon pick leaves the
used set untouched and either stays empty or takes a different-typed item
from the full pool. -/
theorem afternoonSel_exhausted (festToday : List Item) (morning : Option Item)
    (usedA1 : List String) (availA : List Item) :
    (afternoonSel festToday morning usedA1 [] availA).2 = usedA1
    ∧ ((afternoonSel festToday morning usedA1 [] availA).1 = none
       ∨ ∃ d, (afternoonSel festToday morning usedA1 [] availA).1 = some d
            ∧ d ∈ availA) := by
  unfold afternoonSel
  cases hRF : festToday.filter (fun x => !(usedA1.contains x.name)) with
  | cons g gs =>
    dsimp only
    cases morning with
    | none => exact ⟨rfl, Or.inl rfl⟩
    | some m =>
      dsimp only
      cases hDT : availA.filter (fun a => a.name ≠ m.name ∧ a.itemType ≠ m.itemType) with
      | nil => exact ⟨rfl, Or.inl rfl⟩
      | cons d ds =>
        refine ⟨rfl, Or.inr ⟨d, rfl, ?_⟩⟩
        have hd : d ∈ availA.filter (fun a => a.name ≠ m.name ∧ a.itemType ≠ m.itemType) := by
          rw [hDT]
          exact List.mem_cons_self d ds
        exact (List.mem_filter.mp hd).1
  | nil =>
    dsimp only
    cases morning with
    | none => exact ⟨rfl, Or.inl rfl⟩
    | some m =>
      dsimp only
      cases hDT : availA.filter (fun a => a.name ≠ m.name ∧ a.itemType ≠ m.itemType) with
      | nil => exact ⟨rfl, Or.inl rfl⟩
      | cons d ds =>
        refine ⟨rfl, Or.inr ⟨d, rfl, ?_⟩⟩
        have hd : d ∈ availA.filter (fun a => a.name ≠ m.name ∧ a.itemType ≠ m.itemType) := by
          rw [hDT]
          exact List.mem_cons_self d ds
        exact (List.mem_filter.mp hd).1

/-- Helper: a day whose unused activity pool holds at least two distinct
names and whose unused restaurant pool is non-empty fills all three slots
with unused items of distinct names, extending the used sets by exactly
those names. -/
theorem planDayCore_two (fest unA unR availA : List Item) (uA uR : List String)
    (hfsub : ∀ x ∈ fest, x ∈ unA)
    (hA2 : 2 ≤ unA.length)
    (hnodup : (unA.map Item.name).Nodup)
    (hunA : ∀ x ∈ unA, ¬ x.name ∈ uA)
    (hR1 : 1 ≤ unR.length)
    (hunR : ∀ x ∈ unR, ¬ x.name ∈ uR) :
    ∃ m a ev, planDayCore fest unA unR availA uA uR
      = (⟨some m, some a, some ev⟩, a.name :: m.name :: uA, ev.name :: uR)
      ∧ m ∈ unA ∧ a ∈ unA ∧ ev ∈ unR ∧ m.name ≠ a.name
      ∧ ¬ m.name ∈ uA ∧ ¬ a.name ∈ uA ∧ ¬ ev.name ∈ uR := by
  cases unA with
  | nil => simp at hA2
  | cons u us =>
  obtain ⟨m, hmSel, hmMem⟩ := morningSel_pick fest u us uA hfsub
  have hel : ((u :: us).erase m).length = us.length := by
    rw [List.length_erase_of_mem hmMem]
    simp
  have hne : (u :: us).erase m ≠ [] := by
    intro hh
    rw [hh] at hel
    simp only [List.length_nil] at hel
    simp only [List.length_cons] at hA2
    omega
  obtain ⟨w, ws, hw⟩ := List.exists_cons_of_ne_nil hne
  obtain ⟨a, haSel, haCase⟩ := afternoonSel_pick fest (some m) (m.name :: uA) w ws availA
  have hwmem : w ∈ (u :: us).erase m := by
    rw [hw]
    exact List.mem_cons_self w ws
  cases unR with
  | nil => simp at hR1
  | cons r rs =>
  refine ⟨m, a, r, ?_, hmMem, ?_, List.mem_cons_self r rs, ?_,
    hunA m hmMem, ?_, hunR r (List.mem_cons_self r rs)⟩
  · unfold planDayCore
    dsimp only
    rw [hmSel]
    dsimp only
    rw [hw] at hmSel ⊢
    rw [haSel]
    dsimp only [eveningSel]
  · rcases haCase with ⟨haf, -⟩ | rfl
    · exact hfsub a haf
    · exact List.mem_of_mem_erase hwmem
  · rcases haCase with ⟨-, hnotin⟩ | rfl
    · intro he
      exact hnotin (he ▸ List.mem_cons_self m.name uA)
    · have hlnd : (u :: us).Nodup := hnodup.of_map
      have hwne : a ≠ m := (hlnd.mem_erase_iff.mp hwmem).1
      intro he
      have hinj := List.inj_on_of_nodup_map hnodup
      exact hwne (hinj (List.mem_of_mem_erase hwmem) hmMem he.symm)
  · rcases haCase with ⟨-, hnotin⟩ | rfl
    · intro hmem
      exact hnotin (List.mem_cons_of_mem _ hmem)
    · exact hunA a (List.mem_of_mem_erase hwmem)

/-- Helper: when both pools are large enough for the remaining days
(2 per day for activities, 1 per day for restaurants) and pool names are
distinct, every remaining day fills all slots with names that are fresh —
not yet used and pairwise distinct. -/
theorem optimizerAux_nodup (shA shR : ℕ → List Item → List Item)
    (fmt : ℕ → String) (availA availR : List Item) (startOrd : ℕ)
    (hnodA : (availA.map Item.name).Nodup)
    (hnodR : (availR.map Item.name).Nodup) :
    ∀ (n day : ℕ) (uA uR : List String) (recs : List DayRec),
      uA.length + 2 * n ≤ availA.length →
      uR.length + n ≤ availR.length →
      optimizerAux shA shR fmt availA availR startOrd n day uA uR = .ok recs →
      ((recs.map (fun r => dayActNames r.plan)).flatten).Nodup
      ∧ (∀ nm ∈ (recs.map (fun r => dayActNames r.plan)).flatten, ¬ nm ∈ uA)
      ∧ ((recs.map (fun r => dayEveNames r.plan)).flatten).Nodup
      ∧ (∀ nm ∈ (recs.map (fun r => dayEveNames r.plan)).flatten, ¬ nm ∈ uR) := by
  intro n
  induction n with
  | zero =>
    intro day uA uR recs hbA hbR h
    simp only [optimizerAux, Except.ok.injEq] at h
    subst h
    simp
  | succ n ih =>
    intro day uA uR recs hbA hbR h
    unfold optimizerAux at h
    cases hp : planDay (shA day) (shR day) (fmt (startOrd + day)) availA availR uA uR with
    | error e => rw [hp] at h; exact absurd h (by simp)
    | ok st =>
      obtain ⟨plan, uA1, uR1⟩ := st
      rw [hp] at h
      dsimp only at h
      cases ho : optimizerAux shA shR fmt availA availR startOrd n (day + 1) uA1 uR1 with
      | error e => rw [ho] at h; exact absurd h (by simp)
      | ok rest =>
        rw [ho] at h
        simp only [Except.ok.injEq] at h
        subst h
        obtain ⟨uA0, unA, uR0, unR, fest, hfest, hcore, hAcase, hRcase⟩ :=
          planDay_cases _ _ _ _ _ _ _ _ _ _ hp
        -- the unused-activity count bound rules out a reset
        have hcountA := filter_unused_length availA uA hnodA
        have hcountR := filter_unused_length availR uR hnodR
        have hA2 : 2 ≤ (availA.filter (fun a => !(uA.contains a.name))).length := by
          omega
        have hR1 : 1 ≤ (availR.filter (fun r => !(uR.contains r.name))).length := by
          omega
        rcases hAcase with ⟨huA0, hunA, -⟩ | ⟨-, -, hfA, -⟩
        · rcases hRcase with ⟨huR0, hunR, -⟩ | ⟨-, -, hfR, -⟩
          · subst huA0
            subst huR0
            subst hunA
            subst hunR
            obtain ⟨m, a, ev, hval, hmMem, haMem, hevMem, hmaNe, hmFresh, haFresh, hevFresh⟩ :=
              planDayCore_two fest _ _ availA _ _
                ((filterE_sublist hfest).subset)
                hA2
                (hnodA.sublist ((List.filter_sublist _).map Item.name))
                (fun x hx => by simpa using (List.mem_filter.mp hx).2)
                hR1
                (fun x hx => by simpa using (List.mem_filter.mp hx).2)
            rw [hval] at hcore
            simp only [Prod.mk.injEq] at hcore
            obtain ⟨hplan, hua1, hur1⟩ := hcore
            subst hplan
            subst hua1
            subst hur1
            have hbA1 : (a.name :: m.name :: uA0).length + 2 * n ≤ availA.length := by
              simp only [List.length_cons]
              omega
            have hbR1 : (ev.name :: uR0).length + n ≤ availR.length := by
              simp only [List.length_cons]
              omega
            obtain ⟨hNod, hDis, hNodE, hDisE⟩ := ih (day + 1) _ _ rest hbA1 hbR1 ho
            have hdn : dayActNames (⟨some m, some a, some ev⟩ : DayPlan)
                = [m.name, a.name] := rfl
            have hde : dayEveNames (⟨some m, some a, some ev⟩ : DayPlan)
                = [ev.name] := rfl
            simp only [List.map_cons, List.flatten_cons, hdn, hde]
            refine ⟨?_, ?_, ?_, ?_⟩
            · simp only [List.cons_append, List.nil_append, List.nodup_cons]
              refine ⟨?_, ?_, hNod⟩
              · intro hmem
                rcases List.mem_cons.mp hmem with he | hmem2
                · exact hmaNe he
                · exact hDis m.name hmem2 (by simp)
              · intro hmem
                exact hDis a.name hmem (by simp)
            · intro nm hnm
              simp only [List.cons_append, List.nil_append, List.mem_cons] at hnm
              rcases hnm with rfl | rfl | hnm3
              · exact hmFresh
              · exact haFresh
              · intro hin
                exact hDis nm hnm3 (by simp [hin])
            · simp only [List.cons_append, List.nil_append, List.nodup_cons]
              refine ⟨?_, hNodE⟩
              intro hmem
              exact hDisE ev.name hmem (by simp)
            · intro nm hnm
              simp only [List.cons_append, List.nil_append, List.mem_cons] at hnm
              rcases hnm with rfl | hnm2
              · exact hevFresh
              · intro hin
                exact hDisE nm hnm2 (by simp [hin])
          · exfalso
            rw [hfR] at hR1
            simp at hR1
        · exfalso
          rw [hfA] at hA2
          simp at hA2

/-- The reappearance invariant tying a pool's used set to the names placed
so far (`past`): every used name has been placed, and either nothing has
been placed beyond the used set (no reset yet in the current pass) or
every pool name has already been placed (a reset or fallback happened). -/
def UsedOK (pool used past : List String) : Prop :=
  (∀ u ∈ used, u ∈ past) ∧ ((∀ x ∈ past, x ∈ used) ∨ (∀ p ∈ pool, p ∈ past))

/-- Helper: `RepeatOK` splits over an append of the future slots. -/
theorem RepeatOK_append (pool : List String) :
    ∀ (xs ys past : List String),
      RepeatOK pool past (xs ++ ys)
        ↔ (RepeatOK pool past xs ∧ RepeatOK pool (past ++ xs) ys) := by
  intro xs
  induction xs with
  | nil =>
    intro ys past
    simp [RepeatOK]
  | cons x xt ih =>
    intro ys past
    simp only [List.cons_append, RepeatOK]
    have h1 := ih ys (past ++ [x])
    rw [show past ++ [x] ++ xt = past ++ x :: xt by simp] at h1
    tauto

/-- Helper: placing a not-yet-used name preserves the invariant, and such
a placement can repeat an earlier one only after the whole pool has been
placed. -/
theorem usedOK_pick (pool used past : List String) (x : String)
    (hI : UsedOK pool used past) (hx : ¬ x ∈ used) :
    (x ∈ past → ∀ p ∈ pool, p ∈ past)
    ∧ UsedOK pool (x :: used) (past ++ [x]) := by
  obtain ⟨h1, h2⟩ := hI
  constructor
  · intro hxp
    rcases h2 with hL | hR
    · exact absurd (hL x hxp) hx
    · exact hR
  · constructor
    · intro u hu
      rcases List.mem_cons.mp hu with rfl | hu2
      · exact List.mem_append_right _ (List.mem_singleton.mpr rfl)
      · exact List.mem_append_left _ (h1 u hu2)
    · rcases h2 with hL | hR
      · left
        intro y hy
        rcases List.mem_append.mp hy with hy1 | hy2
        · exact List.mem_cons_of_mem _ (hL y hy1)
        · rcases List.mem_singleton.mp hy2 with rfl
          exact List.mem_cons_self _ _
      · right
        intro p hp
        exact List.mem_append_left _ (hR p hp)

/-- Helper: a placement that is not recorded in the used set (the
different-type fallback) is sound when the whole pool is already used:
everything has been placed before it, and the invariant survives. -/
theorem usedOK_ghost (pool used past : List String) (x : String)
    (hI : UsedOK pool used past) (hpool : ∀ p ∈ pool, p ∈ used) :
    (∀ p ∈ pool, p ∈ past) ∧ UsedOK pool used (past ++ [x]) := by
  obtain ⟨h1, h2⟩ := hI
  have hpp : ∀ p ∈ pool, p ∈ past := fun p hp => h1 p (hpool p hp)
  refine ⟨hpp, ?_, Or.inr (fun p hp => List.mem_append_left _ (hpp p hp))⟩
  exact fun u hu => List.mem_append_left _ (h1 u hu)

/-- Helper: clearing the used set at a reset preserves the invariant,
because a reset presupposes that every pool name is used (hence already
placed). -/
theorem usedOK_reset (pool used past : List String)
    (hI : UsedOK pool used past) (hpool : ∀ p ∈ pool, p ∈ used) :
    UsedOK pool [] past := by
  obtain ⟨h1, h2⟩ := hI
  exact ⟨by simp, Or.inr (fun p hp => h1 p (hpool p hp))⟩

/-- Helper: one day's activity selections respect the reappearance
discipline and preserve the invariant, for any resolved unused pool that
is fresh (no used names), has distinct names, and covers the pool
together with the used set. -/
theorem planDayCore_repeatA (fest unA unR availA : List Item)
    (uA0 uR0 : List String) (pastA : List String)
    (hI : UsedOK (availA.map Item.name) uA0 pastA)
    (hfsub : ∀ x ∈ fest, x ∈ unA)
    (hfresh : ∀ x ∈ unA, ¬ x.name ∈ uA0)
    (hnodup : (unA.map Item.name).Nodup)
    (hcover : ∀ p ∈ availA, p.name ∈ uA0 ∨ p ∈ unA) :
    RepeatOK (availA.map Item.name) pastA
      (dayActNames (planDayCore fest unA unR availA uA0 uR0).1)
    ∧ UsedOK (availA.map Item.name)
        (planDayCore fest unA unR availA uA0 uR0).2.1
        (pastA ++ dayActNames (planDayCore fest unA unR availA uA0 uR0).1) := by
  cases unA with
  | nil =>
    have hfe : fest = [] := by
      cases fest with
      | nil => rfl
      | cons f fs => exact absurd (hfsub f (List.mem_cons_self f fs)) (by simp)
    subst hfe
    refine ⟨trivial, ?_⟩
    show UsedOK (availA.map Item.name) uA0 (pastA ++ ([] : List String))
    rw [List.append_nil]
    exact hI
  | cons u us =>
    obtain ⟨m, hmSel, hmMem⟩ := morningSel_pick fest u us uA0 hfsub
    have hmFresh := hfresh m hmMem
    obtain ⟨hhead, hI1⟩ := usedOK_pick _ uA0 pastA m.name hI hmFresh
    cases hE : (u :: us).erase m with
    | cons w ws =>
      obtain ⟨a, haSel, haCase⟩ := afternoonSel_pick fest (some m) (m.name :: uA0) w ws availA
      have hwmem : w ∈ (u :: us).erase m := by
        rw [hE]
        exact List.mem_cons_self w ws
      have haFresh : ¬ a.name ∈ m.name :: uA0 := by
        rcases haCase with ⟨-, hn⟩ | rfl
        · exact hn
        · intro hmem
          rcases List.mem_cons.mp hmem with he | hmem2
          · have hlnd : (u :: us).Nodup := hnodup.of_map
            have hwne : a ≠ m := (hlnd.mem_erase_iff.mp hwmem).1
            have hinj := List.inj_on_of_nodup_map hnodup
            exact hwne (hinj (List.mem_of_mem_erase hwmem) hmMem he)
          · exact hfresh a (List.mem_of_mem_erase hwmem) hmem2
      obtain ⟨hhead2, hI2⟩ := usedOK_pick _ (m.name :: uA0) (pastA ++ [m.name]) a.name hI1 haFresh
      have hgoal : planDayCore fest (u :: us) unR availA uA0 uR0
          = (⟨some m, some a, (eveningSel unR uR0).1⟩,
             a.name :: m.name :: uA0, (eveningSel unR uR0).2) := by
        unfold planDayCore
        dsimp only
        rw [hmSel]
        dsimp only
        rw [hE, haSel]
      rw [hgoal]
      refine ⟨⟨hhead, hhead2, trivial⟩, ?_⟩
      have happ : (pastA ++ [m.name]) ++ [a.name]
          = pastA ++ dayActNames (⟨some m, some a, (eveningSel unR uR0).1⟩ : DayPlan) := by
        simp [dayActNames]
      rw [← happ]
      exact hI2
    | nil =>
      have hus : us = [] := by
        have hlen := List.length_erase_of_mem hmMem
        rw [hE] at hlen
        simp only [List.length_nil, List.length_cons, Nat.add_sub_cancel] at hlen
        exact List.eq_nil_of_length_eq_zero hlen.symm
      subst hus
      have hum : m = u := by
        rcases List.mem_cons.mp hmMem with h | h
        · exact h
        · simp at h
      subst hum
      obtain ⟨haUsed, haRes⟩ := afternoonSel_exhausted fest (some m) (m.name :: uA0) availA
      have hpool : ∀ p ∈ availA.map Item.name, p ∈ (m.name :: uA0) := by
        intro p hp
        obtain ⟨x, hx, rfl⟩ := List.mem_map.mp hp
        rcases hcover x hx with h | h
        · exact List.mem_cons_of_mem _ h
        · rcases List.mem_singleton.mp h with rfl
          exact List.mem_cons_self _ _
      rcases haRes with hnone | ⟨d, hd, -⟩
      · have haSel : afternoonSel fest (some m) (m.name :: uA0) [] availA
            = (none, m.name :: uA0) := Prod.ext hnone haUsed
        have hgoal : planDayCore fest [m] unR availA uA0 uR0
            = (⟨some m, none, (eveningSel unR uR0).1⟩,
               m.name :: uA0, (eveningSel unR uR0).2) := by
          unfold planDayCore
          dsimp only
          rw [hmSel]
          dsimp only
          rw [hE, haSel]
        rw [hgoal]
        refine ⟨⟨hhead, trivial⟩, ?_⟩
        have happ : pastA ++ [m.name]
            = pastA ++ dayActNames (⟨some m, none, (eveningSel unR uR0).1⟩ : DayPlan) := by
          simp [dayActNames]
        rw [← happ]
        exact hI1
      · have haSel : afternoonSel fest (some m) (m.name :: uA0) [] availA
            = (some d, m.name :: uA0) := Prod.ext hd haUsed
        obtain ⟨hpp, hI2⟩ := usedOK_ghost _ (m.name :: uA0) (pastA ++ [m.name]) d.name hI1 hpool
        have hgoal : planDayCore fest [m] unR availA uA0 uR0
            = (⟨some m, some d, (eveningSel unR uR0).1⟩,
               m.name :: uA0, (eveningSel unR uR0).2) := by
          unfold planDayCore
          dsimp only
          rw [hmSel]
          dsimp only
          rw [hE, haSel]
        rw [hgoal]
        refine ⟨⟨hhead, fun _ => hpp, trivial⟩, ?_⟩
        have happ : (pastA ++ [m.name]) ++ [d.name]
            = pastA ++ dayActNames (⟨some m, some d, (eveningSel unR uR0).1⟩ : DayPlan) := by
          simp [dayActNames]
        rw [← happ]
        exact hI2

/-- Helper: one day's evening selection respects the reappearance
discipline and preserves the restaurant-side invariant. -/
theorem planDayCore_repeatR (availR_names : List String)
    (fest unA unR availA : List Item)
    (uA0 uR0 : List String) (pastR : List String)
    (hI : UsedOK availR_names uR0 pastR)
    (hfresh : ∀ x ∈ unR, ¬ x.name ∈ uR0) :
    RepeatOK availR_names pastR
      (dayEveNames (planDayCore fest unA unR availA uA0 uR0).1)
    ∧ UsedOK availR_names
        (planDayCore fest unA unR availA uA0 uR0).2.2
        (pastR ++ dayEveNames (planDayCore fest unA unR availA uA0 uR0).1) := by
  cases unR with
  | nil =>
    have h1 : (planDayCore fest unA [] availA uA0 uR0).1.evening = none := rfl
    have h2 : (planDayCore fest unA [] availA uA0 uR0).2.2 = uR0 := rfl
    rw [h2]
    have h3 : dayEveNames (planDayCore fest unA [] availA uA0 uR0).1 = [] := by
      unfold dayEveNames
      rw [h1]
      rfl
    rw [h3]
    exact ⟨trivial, by simpa using hI⟩
  | cons r rs =>
    have h1 : (planDayCore fest unA (r :: rs) availA uA0 uR0).1.evening = some r := rfl
    have h2 : (planDayCore fest unA (r :: rs) availA uA0 uR0).2.2 = r.name :: uR0 := rfl
    rw [h2]
    have h3 : dayEveNames (planDayCore fest unA (r :: rs) availA uA0 uR0).1 = [r.name] := by
      unfold dayEveNames
      rw [h1]
      rfl
    rw [h3]
    obtain ⟨hhead, hI1⟩ := usedOK_pick _ uR0 pastR r.name hI
      (hfresh r (List.mem_cons_self r rs))
    exact ⟨⟨hhead, trivial⟩, hI1⟩

/-- Helper: for permutation shuffles and distinct pool names, the whole
day loop respects the reappearance discipline on both pools, from any
state satisfying the invariant. -/
theorem optimizerAux_repeat (shA shR : ℕ → List Item → List Item)
    (fmt : ℕ → String) (availA availR : List Item) (startOrd : ℕ)
    (hshA : IsShuffle shA)
    (hnodA : (availA.map Item.name).Nodup) :
    ∀ (n day : ℕ) (uA uR : List String) (recs : List DayRec)
      (pastA pastR : List String),
      UsedOK (availA.map Item.name) uA pastA →
      UsedOK (availR.map Item.name) uR pastR →
      optimizerAux shA shR fmt availA availR startOrd n day uA uR = .ok recs →
      RepeatOK (availA.map Item.name) pastA
        ((recs.map (fun r => dayActNames r.plan)).flatten)
      ∧ RepeatOK (availR.map Item.name) pastR
        ((recs.map (fun r => dayEveNames r.plan)).flatten) := by
  intro n
  induction n with
  | zero =>
    intro day uA uR recs pastA pastR hIA hIR h
    simp only [optimizerAux, Except.ok.injEq] at h
    subst h
    exact ⟨trivial, trivial⟩
  | succ n ih =>
    intro day uA uR recs pastA pastR hIA hIR h
    unfold optimizerAux at h
    cases hp : planDay (shA day) (shR day) (fmt (startOrd + day)) availA availR uA uR with
    | error e => rw [hp] at h; exact absurd h (by simp)
    | ok st =>
      obtain ⟨plan, uA1, uR1⟩ := st
      rw [hp] at h
      dsimp only at h
      cases ho : optimizerAux shA shR fmt availA availR startOrd n (day + 1) uA1 uR1 with
      | error e => rw [ho] at h; exact absurd h (by simp)
      | ok rest =>
        rw [ho] at h
        simp only [Except.ok.injEq] at h
        subst h
        obtain ⟨uA0, unA, uR0, unR, fest, hfest, hcore, hAcase, hRcase⟩ :=
          planDay_cases _ _ _ _ _ _ _ _ _ _ hp
        have hAfacts : UsedOK (availA.map Item.name) uA0 pastA
            ∧ (∀ x ∈ unA, ¬ x.name ∈ uA0)
            ∧ (unA.map Item.name).Nodup
            ∧ (∀ p ∈ availA, p.name ∈ uA0 ∨ p ∈ unA) := by
          rcases hAcase with ⟨rfl, rfl, -⟩ | ⟨rfl, rfl, hfA, -⟩
          · refine ⟨hIA, ?_, ?_, ?_⟩
            · intro x hx
              have := (List.mem_filter.mp hx).2
              simpa using this
            · exact hnodA.sublist ((List.filter_sublist _).map Item.name)
            · intro p hp
              by_cases hc : p.name ∈ uA0
              · exact Or.inl hc
              · right
                refine List.mem_filter.mpr ⟨hp, ?_⟩
                simpa using hc
          · refine ⟨?_, ?_, ?_, ?_⟩
            · refine usedOK_reset _ uA pastA hIA ?_
              intro p hp
              obtain ⟨x, hx, rfl⟩ := List.mem_map.mp hp
              have hnx := List.filter_eq_nil_iff.mp hfA x hx
              simpa using hnx
            · intro x hx
              simp
            · exact ((hshA day availA).map Item.name).nodup_iff.mpr hnodA
            · intro p hp
              exact Or.inr ((hshA day availA).mem_iff.mpr hp)
        have hRfacts : UsedOK (availR.map Item.name) uR0 pastR
            ∧ (∀ x ∈ unR, ¬ x.name ∈ uR0) := by
          rcases hRcase with ⟨rfl, rfl, -⟩ | ⟨rfl, rfl, hfR, -⟩
          · refine ⟨hIR, ?_⟩
            intro x hx
            have := (List.mem_filter.mp hx).2
            simpa using this
          · refine ⟨?_, ?_⟩
            · refine usedOK_reset _ uR pastR hIR ?_
              intro p hp
              obtain ⟨x, hx, rfl⟩ := List.mem_map.mp hp
              have hnx := List.filter_eq_nil_iff.mp hfR x hx
              simpa using hnx
            · intro x hx
              simp
        obtain ⟨hIA0, hfreshA, hnodupA, hcoverA⟩ := hAfacts
        obtain ⟨hIR0, hfreshR⟩ := hRfacts
        obtain ⟨hRep, hI1⟩ := planDayCore_repeatA fest unA unR availA uA0 uR0
          pastA hIA0 ((filterE_sublist hfest).subset) hfreshA hnodupA hcoverA
        obtain ⟨hRepR, hIR1⟩ := planDayCore_repeatR (availR.map Item.name)
          fest unA unR availA uA0 uR0 pastR hIR0 hfreshR
        rw [hcore] at hRep hI1 hRepR hIR1
        dsimp only at hRep hI1 hRepR hIR1
        obtain ⟨hRestA, hRestR⟩ := ih (day + 1) uA1 uR1 rest
          (pastA ++ dayActNames plan) (pastR ++ dayEveNames plan) hI1 hIR1 ho
        constructor
        · simp only [List.map_cons, List.flatten_cons]
          exact (RepeatOK_append _ _ _ _).mpr ⟨hRep, hRestA⟩
        · simp only [List.map_cons, List.flatten_cons]
          exact (RepeatOK_append _ _ _ _).mpr ⟨hRepR, hRestR⟩

/-- C1 (amended): assuming names are unique within each pool (the data
model's uniqueness requirement) and festival-typed activities are dated,
every run of `function_tool_optimizer` satisfies: (a) when the activity
pool has at least 2·days items and the restaurant pool at least days
items — one name per slot the trip demands — no item name occupies two
activity slots nor two evening slots across the whole trip; and (b) for
pools of any size, an item name reappears in a slot only after every name
of its pool has already appeared in some earlier slot.  The claim's
further assertion that a pool smaller than its slot demand forces a reset
of its used set is false (see the counterexample: the afternoon's
different-type fallback can absorb the shortfall without any reset). -/
theorem C1_no_repeat_until_exhaustion (shA shR : ℕ → List Item → List Item)
    (fmt : ℕ → String) (activities restaurants : List Item)
    (startOrd endOrd : ℕ)
    (hshA : IsShuffle shA)
    (hnodA : (activities.map Item.name).Nodup)
    (hnodR : (restaurants.map Item.name).Nodup)
    (hwf : DatedFestivals activities) :
    ∃ it, function_tool_optimizer shA shR fmt activities restaurants
        startOrd endOrd = .ok it
      ∧ (2 * (((endOrd : ℤ) - (startOrd : ℤ) + 1).toNat) ≤ activities.length ∧
          (((endOrd : ℤ) - (startOrd : ℤ) + 1).toNat) ≤ restaurants.length →
          (actNames it).Nodup ∧ (eveNames it).Nodup)
      ∧ RepeatOK (activities.map Item.name) [] (actNames it)
      ∧ RepeatOK (restaurants.map Item.name) [] (eveNames it) := by
  obtain ⟨recs, hrecs⟩ := optimizerAux_isOk shA shR fmt activities restaurants
    startOrd hwf hshA (((endOrd : ℤ) - (startOrd : ℤ) + 1).toNat) 0 [] []
  have hmapA : actNames (recs.map (fun r => (r.dateStr, r.plan)))
      = (recs.map (fun r => dayActNames r.plan)).flatten := by
    unfold actNames
    rw [List.map_map]
    rfl
  have hmapE : eveNames (recs.map (fun r => (r.dateStr, r.plan)))
      = (recs.map (fun r => dayEveNames r.plan)).flatten := by
    unfold eveNames
    rw [List.map_map]
    rfl
  have hrep := optimizerAux_repeat shA shR fmt activities restaurants startOrd
    hshA hnodA (((endOrd : ℤ) - (startOrd : ℤ) + 1).toNat) 0 [] [] recs [] []
    ⟨by simp, Or.inl (by simp)⟩ ⟨by simp, Or.inl (by simp)⟩ hrecs
  refine ⟨recs.map (fun r => (r.dateStr, r.plan)), ?_, ?_, ?_, ?_⟩
  · unfold function_tool_optimizer
    dsimp only
    rw [hrecs]
    rfl
  · intro hb
    have hnod := optimizerAux_nodup shA shR fmt activities restaurants startOrd
      hnodA hnodR (((endOrd : ℤ) - (startOrd : ℤ) + 1).toNat) 0 [] [] recs
      (by simpa using hb.1) (by simpa using hb.2) hrecs
    rw [hmapA, hmapE]
    exact ⟨hnod.1, hnod.2.2.1⟩
  · rw [hmapA]
    exact hrep.1
  · rw [hmapE]
    exact hrep.2

/-- C1 witness: a one-day run with two distinct activities and one
restaurant — pools exactly as large as the slot demand. -/
theorem C1_no_repeat_until_exhaustion_witness :
    IsShuffle (fun _ l => l)
    ∧ (([{ name := "City Museum" }, { name := "Scenic Park" }] : List Item).map
        Item.name).Nodup
    ∧ (([{ name := "Local Bistro" }] : List Item).map Item.name).Nodup
    ∧ DatedFestivals [{ name := "City Museum" }, { name := "Scenic Park" }]
    ∧ (∃ it, function_tool_optimizer (fun _ l => l) (fun _ l => l)
        (fun n : ℕ => toString n)
        [{ name := "City Museum" }, { name := "Scenic Park" }]
        [{ name := "Local Bistro" }] 0 0 = .ok it
      ∧ (2 * (((0 : ℤ) - (0 : ℤ) + 1).toNat)
            ≤ ([{ name := "City Museum" }, { name := "Scenic Park" }] : List Item).length ∧
          (((0 : ℤ) - (0 : ℤ) + 1).toNat)
            ≤ ([{ name := "Local Bistro" }] : List Item).length →
          (actNames it).Nodup ∧ (eveNames it).Nodup)
      ∧ RepeatOK (([{ name := "City Museum" }, { name := "Scenic Park" }] : List Item).map
          Item.name) [] (actNames it)
      ∧ RepeatOK (([{ name := "Local Bistro" }] : List Item).map Item.name) []
          (eveNames it)) := by
  have hsh : IsShuffle (fun _ l => l) := fun _ _ => List.Perm.refl _
  have hwf : DatedFestivals [{ name := "City Museum" }, { name := "Scenic Park" }] := by
    intro a ha hft
    rcases List.mem_cons.mp ha with rfl | ha2
    · exact absurd hft (by decide)
    · rcases List.mem_singleton.mp ha2 with rfl
      exact absurd hft (by decide)
  exact ⟨hsh, by decide, by decide, hwf,
    C1_no_repeat_until_exhaustion (fun _ l => l) (fun _ l => l)
      (fun n : ℕ => toString n)
      [{ name := "City Museum" }, { name := "Scenic Park" }]
      [{ name := "Local Bistro" }] 0 0 hsh (by decide) (by decide) hwf⟩

/-- C1 counterexample: a one-day trip with a one-item activity pool.  The
pool (1 item) is smaller than the trip's activity slot demand (2 slots),
yet the run completes without the activity pool's used set ever being
reset: on the only day the entry used set is empty, so the unused pool is
non-empty and the reset branch (`src/planner.py:478-481`) never fires —
contradicting the claim that a too-small pool forces a reset. -/
theorem C1_counterexample :
    (([{ name := "Solo Museum" }] : List Item).length
        < 2 * (((0 : ℤ) - (0 : ℤ) + 1).toNat))
    ∧ optimizerTrace (fun _ l => l) (fun _ l => l) (fun _ => "day")
        [{ name := "Solo Museum" }] [{ name := "Solo Cafe" }] 0 0
      = .ok [⟨"day", ⟨some { name := "Solo Museum" }, none,
          some { name := "Solo Cafe" }⟩, [], []⟩]
    ∧ activityResetFires [{ name := "Solo Museum" }]
        [⟨"day", ⟨some { name := "Solo Museum" }, none,
          some { name := "Solo Cafe" }⟩, [], []⟩]
      = false :=
  ⟨by decide, by rfl, by rfl⟩

end TripScout
